import Mathlib

/-!
# Verification of the rotation-export pipeline (`geckolib_exporter.py`)

Shallow embedding of the exporter's core: quaternion continuity filtering,
quaternion→Euler conversion (kept abstract, the conversion itself is a
`mathutils` library call), per-axis inversion, axis permutation
(`apply_swap_mapping`), baseline zeroing, the closest-Euler-equivalent search
(`closest_euler_equiv`), and the `execute` driver.

Numeric values are modelled by exact rationals `ℚ`.  Python floats are binary
rationals, so every constant the program manipulates (including `math.pi` and
`180/π = math.degrees` factor, which we keep as abstract rational parameters
`piq` and `dpr`) is a rational; the model idealises away floating-point
rounding of intermediate arithmetic.
-/

namespace Gecko

/-- A 3-component vector `[x, y, z]` of the exporter. -/
abbrev Triple : Type := ℚ × ℚ × ℚ

/-- `mathutils.Quaternion` components (w, x, y, z). -/
structure Quat where
  w : ℚ
  x : ℚ
  y : ℚ
  z : ℚ
deriving DecidableEq, Repr

/-- `Quaternion.dot`: componentwise dot product. -/
def Quat.dot (a b : Quat) : ℚ := a.w * b.w + a.x * b.x + a.y * b.y + a.z * b.z

/-- `-q` on a `mathutils.Quaternion`: negate every component. -/
def Quat.negate (q : Quat) : Quat := ⟨-q.w, -q.x, -q.y, -q.z⟩

/-- Lines 252-255: quaternion-sign continuity.  With a stored previous
quaternion `prevq`, flip the sign of `q` when `prevq.dot(q) < 0`. -/
def contFilter (prevq : Option Quat) (q : Quat) : Quat :=
  match prevq with
  | none => q
  | some p => if p.dot q < 0 then q.negate else q

/-- The sequence of quaternions successively stored into `prev_quats[obj.name]`
(line 256) when the raw per-frame samples are `qs` and the stored value starts
as `prevq`: each frame stores the continuity-filtered quaternion. -/
def filterSeq (prevq : Option Quat) : List Quat → List Quat
  | [] => []
  | q :: rest =>
    let q' := contFilter prevq q
    q' :: filterSeq (some q') rest

/-! ## Axis permutation (`apply_swap_mapping`, lines 56-64) -/

/-- An axis character `'X' | 'Y' | 'Z'` of a swap-mapping string. -/
inductive Ax | X | Y | Z
deriving DecidableEq, Repr

/-- The `idx = {'X': 0, 'Y': 1, 'Z': 2}` dictionary (line 63). -/
def axIdx : Ax → Fin 3
  | .X => 0
  | .Y => 1
  | .Z => 2

/-- `vec[i]` for a 3-component vector. -/
def tget (v : Triple) : Fin 3 → ℚ
  | 0 => v.1
  | 1 => v.2.1
  | 2 => v.2.2

/-- Lines 56-64: `apply_swap_mapping(vec, mapping)` returns
`[vec[idx[c]] for c in mapping]` for a 3-character mapping, repacked as the
3-component result the callers unpack it into. -/
def apply_swap_mapping (vec : Triple) (mapping : Ax × Ax × Ax) : Triple :=
  (tget vec (axIdx mapping.1), tget vec (axIdx mapping.2.1), tget vec (axIdx mapping.2.2))

/-- The six values of the `SWAP_ITEMS` enum (lines 66-73). -/
inductive SwapCode | XYZ | XZY | YXZ | YZX | ZXY | ZYX
deriving DecidableEq, Repr

/-- The three characters of each enum value's mapping string. -/
def codeAxes : SwapCode → Ax × Ax × Ax
  | .XYZ => (.X, .Y, .Z)
  | .XZY => (.X, .Z, .Y)
  | .YXZ => (.Y, .X, .Z)
  | .YZX => (.Y, .Z, .X)
  | .ZXY => (.Z, .X, .Y)
  | .ZYX => (.Z, .Y, .X)

/-- `apply_swap_mapping` at one of the six dropdown codes. -/
def applySwap (c : SwapCode) (v : Triple) : Triple :=
  apply_swap_mapping v (codeAxes c)

/-- The inverse permutation of each swap code. -/
def invCode : SwapCode → SwapCode
  | .XYZ => .XYZ
  | .XZY => .XZY
  | .YXZ => .YXZ
  | .YZX => .ZXY
  | .ZXY => .YZX
  | .ZYX => .ZYX

/-! ## Closest-Euler-equivalent search (`closest_euler_equiv`, lines 21-54) -/

/-- `range(-max_shift, max_shift + 1)` (line 40): the integers
`-K, -K+1, …, K` in ascending order. -/
def shiftRange (K : ℕ) : List ℤ :=
  (List.range (2 * K + 1)).map (fun i : ℕ => (i : ℤ) - (K : ℤ))

/-- Line 33-36: the full-turn constant — `360.0` when in degrees, `2.0 * math.pi`
otherwise.  `piq` stands for the (rational double) constant `math.pi`. -/
def fullTurn (in_degrees : Bool) (piq : ℚ) : ℚ :=
  if in_degrees then 360 else 2 * piq

/-- The candidate `(cur.x + kx*full, cur.y + ky*full, cur.z + kz*full)` of
lines 44-46. -/
def shiftBy (cur : Triple) (full : ℚ) (k : ℤ × ℤ × ℤ) : Triple :=
  (cur.1 + k.1 * full, cur.2.1 + k.2.1 * full, cur.2.2 + k.2.2 * full)

/-- The candidates enumerated by the triple loop of lines 41-46, in loop order
(`kx` outermost, each index ascending). -/
def cands3 (cur : Triple) (full : ℚ) (K : ℕ) : List Triple :=
  (shiftRange K).flatMap fun kx =>
    (shiftRange K).flatMap fun ky =>
      (shiftRange K).map fun kz => shiftBy cur full (kx, ky, kz)

/-- Lines 47-50: squared Euclidean distance `dx*dx + dy*dy + dz*dz` between a
candidate and `prev_vals`. -/
def sqDist (cand prev : Triple) : ℚ :=
  (cand.1 - prev.1) * (cand.1 - prev.1) +
    (cand.2.1 - prev.2.1) * (cand.2.1 - prev.2.1) +
    (cand.2.2 - prev.2.2) * (cand.2.2 - prev.2.2)

/-- The `best`/`best_dist` accumulation of lines 38-53: starting from
`best = None`, each candidate replaces the running best exactly when
`best_dist is None or dist < best_dist`. -/
def runMin (f : α → ℚ) (acc : Option (α × ℚ)) (l : List α) : Option (α × ℚ) :=
  l.foldl
    (fun acc cand =>
      match acc with
      | none => some (cand, f cand)
      | some (b, bd) => if f cand < bd then some (cand, f cand) else some (b, bd))
    acc

/-- Lines 21-54: `closest_euler_equiv(prev_vals, cur_vals, in_degrees, max_shift)`.
Returns `cur_vals` when `prev_vals is None`; otherwise runs the `best`/`best_dist`
scan over the nested-loop candidates.  (The `none` fallback of the final match is
unreachable: the candidate list is nonempty.) -/
def closest_euler_equiv (prev_vals : Option Triple) (cur_vals : Triple)
    (in_degrees : Bool) (piq : ℚ) (max_shift : ℕ) : Triple :=
  match prev_vals with
  | none => cur_vals
  | some p =>
    let full := fullTurn in_degrees piq
    match runMin (fun cand => sqDist cand p) none (cands3 cur_vals full max_shift) with
    | some (b, _) => b
    | none => cur_vals

/-! ## Rounding and time keys -/

/-- Python's `round` on an exact rational value: nearest integer, ties to even. -/
def pyRound (x : ℚ) : ℤ :=
  let n := ⌊x⌋
  let r := x - (n : ℚ)
  if r < 1 / 2 then n
  else if 1 / 2 < r then n + 1
  else if Even n then n else n + 1

/-- `round(x, 5)` (lines 283/304/328) on the idealised rational value. -/
def round5 (x : ℚ) : ℚ := (pyRound (x * 100000) : ℚ) / 100000

/-- `[round(x,5), round(y,5), round(z,5)]`. -/
def round5T (v : Triple) : Triple := (round5 v.1, round5 v.2.1, round5 v.2.2)

/-- Line 19: `EXPORT_FPS = 24.0`. -/
def EXPORT_FPS : ℚ := 24

/-- The channel key `f"{t:.4f}"` is modelled by the exact rational `t` it
formats: consecutive sampled times differ by at least `1/24 > 10⁻⁴`, so the
4-decimal formatting is injective on the keys one run produces. -/
def timeKey (t : ℚ) : ℚ := t

/-! ## The `execute` driver (`ExportAnimJSON.execute`, lines 167-358) -/

/-- The operator's configuration properties (lines 83-141).  `fps` is UI-only
and unused by `execute`.  The UI enforces `step ≥ 1` and `0 ≤ unwrap_max_shift ≤ 3`. -/
structure Config where
  start_frame : ℤ
  end_frame : ℤ
  step : ℤ
  export_selected : Bool
  use_world_space : Bool
  export_rotation : Bool
  export_degrees : Bool
  invert_rot_x : Bool
  invert_rot_y : Bool
  invert_rot_z : Bool
  rotation_swap : SwapCode
  zero_rot_at_start : Bool
  use_axis_unwrap : Bool
  export_scale : Bool
  normalize_scale_at_start : Bool
  scale_swap : SwapCode
  export_position : Bool
  pos_multiplier : ℚ
  invert_pos_x : Bool
  invert_pos_y : Bool
  invert_pos_z : Bool
  position_swap : SwapCode
  unwrap_max_shift : ℕ

/-- The Blender-side world `execute` runs in.  Objects are identified by their
(unique, in Blender) names.  `getQuat name f` models the quaternion extracted
at lines 209-216/243-250 after `scene.frame_set(f)` (world/local and
rotation-mode branches are library calls folded into this sampler);
`toEulerXYZ` models `mathutils`' `q.to_euler('XYZ')`; `dpr` is the
`math.degrees` factor `180/π`; `piq` is `math.pi`; `writeOk` tells whether the
`open`/`json.dump` of lines 348-350 succeeds. -/
structure Env where
  selected_objects : List String
  active_object : Option String
  frame_current : ℤ
  getQuat : String → ℤ → Quat
  getScale : String → ℤ → Triple
  getPos : String → ℤ → Triple
  toEulerXYZ : Quat → Triple
  dpr : ℚ
  piq : ℚ
  writeOk : Bool

/-- Line 171-175: the list of objects to export. -/
def objectsOf (env : Env) (cfg : Config) : List String :=
  if cfg.export_selected then env.selected_objects
  else
    match env.active_object with
    | some o => [o]
    | none => []

/-- `range(start, end+1, step)` of line 238, for `step ≥ 1`. -/
def frameList (start stop step : ℤ) : List ℤ :=
  (List.range ((stop - start) / step + 1).toNat).map (fun i : ℕ => start + step * (i : ℤ))

/-- Python dict assignment `d[k] = v`: replace the existing entry for `k` in
place, else append. -/
def dictInsert : List (String × α) → String → α → List (String × α)
  | [], k, v => [(k, v)]
  | (k', v') :: t, k, v =>
    if k' = k then (k, v) :: t else (k', v') :: dictInsert t k v

/-- Mutable state threaded through `execute`'s loops: the two per-name dicts
`prev_quats` / `prev_exported_rot` (lines 192-193), the scene's current frame
(mutated by every `scene.frame_set`), and the trace of object evaluations
`(name, frame)` performed so far (each sampler call appends one). -/
structure LoopSt where
  prevQuats : String → Option Quat
  prevExp : String → Option Triple
  curFrame : ℤ
  trace : List (String × ℤ)

/-- Lines 217-223: Euler conversion, optional degrees conversion and per-axis
inversion shared by the baseline (lines 217-223) and frame (lines 258-266)
paths. -/
def convertInvert (cfg : Config) (toE : Quat → Triple) (dpr : ℚ) (q : Quat) : Triple :=
  let e := toE q
  let r := if cfg.export_degrees then (dpr * e.1, dpr * e.2.1, dpr * e.2.2) else e
  ((if cfg.invert_rot_x then -r.1 else r.1),
   (if cfg.invert_rot_y then -r.2.1 else r.2.1),
   (if cfg.invert_rot_z then -r.2.2 else r.2.2))

/-- Lines 208-225: the zero-at-start baseline `base_rot_vec` — conversion,
degrees, inversion, then the rotation swap mapping (no continuity filter, no
unwrap). -/
def baseRotVec (cfg : Config) (toE : Quat → Triple) (dpr : ℚ) (q0 : Quat) : Triple :=
  applySwap cfg.rotation_swap (convertInvert cfg toE dpr q0)

/-- Componentwise subtraction of triples. -/
def sub3 (a b : Triple) : Triple := (a.1 - b.1, a.2.1 - b.2.1, a.2.2 - b.2.2)

/-- Lines 252-281, one frame of the rotation channel: continuity filter (and
the value stored back into `prev_quats`), conversion + degrees + inversion,
swap mapping (applied *before* zeroing, line 268-269), zero-at-start
subtraction of `base_rot`, then the closest-Euler search against the stored
`prev_exported_rot` value.  Returns the stored quaternion and the stored
(pre-rounding) triple of line 281. -/
def rotBody (cfg : Config) (toE : Quat → Triple) (dpr piq : ℚ) (base_rot : Triple)
    (pq : Option Quat) (pe : Option Triple) (q0 : Quat) : Quat × Triple :=
  let q := contFilter pq q0
  let r := convertInvert cfg toE dpr q
  let r := applySwap cfg.rotation_swap r
  let r := if cfg.zero_rot_at_start then sub3 r base_rot else r
  let r :=
    if cfg.use_axis_unwrap then
      closest_euler_equiv pe r cfg.export_degrees piq cfg.unwrap_max_shift
    else r
  (q, r)

/-- Lines 288-306, one frame of the scale channel. -/
def scaleBody (cfg : Config) (base_scale s : Triple) : Triple :=
  let s :=
    if cfg.normalize_scale_at_start then
      let bsx := if base_scale.1 ≠ 0 then base_scale.1 else 1
      let bsy := if base_scale.2.1 ≠ 0 then base_scale.2.1 else 1
      let bsz := if base_scale.2.2 ≠ 0 then base_scale.2.2 else 1
      (s.1 / bsx, s.2.1 / bsy, s.2.2 / bsz)
    else s
  applySwap cfg.scale_swap s

/-- Lines 309-328, one frame of the position channel. -/
def posBody (cfg : Config) (base_pos p : Triple) : Triple :=
  let p := sub3 p base_pos
  let p := (p.1 * cfg.pos_multiplier, p.2.1 * cfg.pos_multiplier, p.2.2 * cfg.pos_multiplier)
  let p :=
    ((if cfg.invert_pos_x then -p.1 else p.1),
     (if cfg.invert_pos_y then -p.2.1 else p.2.1),
     (if cfg.invert_pos_z then -p.2.2 else p.2.2))
  applySwap cfg.position_swap p

/-- Lines 238-330, the body of `for frame in range(start, end+1, step)` for
object `n`: `scene.frame_set(frame)`, then the optional rotation, scale and
position samples.  Returns the new state and the optional channel entries. -/
def frameBody (env : Env) (cfg : Config) (n : String) (start : ℤ)
    (base_rot base_scale base_pos : Triple) (st : LoopSt) (f : ℤ) :
    LoopSt × Option (ℚ × Triple) × Option (ℚ × Triple) × Option (ℚ × Triple) :=
  let st := { st with curFrame := f }
  let (st, rotE) :=
    if cfg.export_rotation then
      let q0 := env.getQuat n f
      let qr := rotBody cfg env.toEulerXYZ env.dpr env.piq base_rot
        (st.prevQuats n) (st.prevExp n) q0
      ({ st with
          trace := st.trace ++ [(n, f)]
          prevQuats := fun m => if m = n then some qr.1 else st.prevQuats m
          prevExp := fun m => if m = n then some qr.2 else st.prevExp m },
       some (timeKey (f / EXPORT_FPS), round5T qr.2))
    else (st, none)
  let (st, scE) :=
    if cfg.export_scale then
      let s := env.getScale n f
      ({ st with trace := st.trace ++ [(n, f)] },
       some (timeKey (f / EXPORT_FPS), round5T (scaleBody cfg base_scale s)))
    else (st, none)
  let (st, posE) :=
    if cfg.export_position then
      let p := env.getPos n f
      ({ st with trace := st.trace ++ [(n, f)] },
       some (timeKey ((f - start) / EXPORT_FPS), round5T (posBody cfg base_pos p)))
    else (st, none)
  (st, rotE, scE, posE)

/-- The frame loop of lines 238-330, collecting the three channels in frame
order. -/
def frameLoop (env : Env) (cfg : Config) (n : String) (start : ℤ)
    (base_rot base_scale base_pos : Triple) (st : LoopSt) :
    List ℤ → LoopSt × List (ℚ × Triple) × List (ℚ × Triple) × List (ℚ × Triple)
  | [] => (st, [], [], [])
  | f :: rest =>
    let step1 := frameBody env cfg n start base_rot base_scale base_pos st f
    let restR := frameLoop env cfg n start base_rot base_scale base_pos step1.1 rest
    (restR.1,
     step1.2.1.toList ++ restR.2.1,
     step1.2.2.1.toList ++ restR.2.2.1,
     step1.2.2.2.toList ++ restR.2.2.2)

/-- The per-object structure appended to `animation_data["bones"]`
(lines 332-336). -/
structure ObjStruct where
  rotation : Option (List (ℚ × Triple))
  scale : Option (List (ℚ × Triple))
  position : Option (List (ℚ × Triple))
deriving DecidableEq, Repr

/-- Lines 195-338, the body of `for obj in objects`: `scene.frame_set(start)`,
the three base samples (position lines 202-206, rotation 208-227, scale
229-235), the frame loop, and assembly of the object's structure. -/
def objBody (env : Env) (cfg : Config) (start stop : ℤ) (st : LoopSt) (n : String) :
    LoopSt × ObjStruct :=
  let st := { st with curFrame := start }
  let (st, base_pos) :=
    if cfg.export_position then
      ({ st with trace := st.trace ++ [(n, start)] }, env.getPos n start)
    else (st, ((0 : ℚ), (0 : ℚ), (0 : ℚ)))
  let (st, base_rot) :=
    if cfg.export_rotation then
      ({ st with trace := st.trace ++ [(n, start)] },
       baseRotVec cfg env.toEulerXYZ env.dpr (env.getQuat n start))
    else (st, ((0 : ℚ), (0 : ℚ), (0 : ℚ)))
  let (st, base_scale) :=
    if cfg.export_scale then
      ({ st with trace := st.trace ++ [(n, start)] },
       applySwap cfg.scale_swap (env.getScale n start))
    else (st, ((1 : ℚ), (1 : ℚ), (1 : ℚ)))
  let res := frameLoop env cfg n start base_rot base_scale base_pos st
    (frameList start stop cfg.step)
  (res.1,
   { rotation := if cfg.export_rotation then some res.2.1 else none
     scale := if cfg.export_scale then some res.2.2.1 else none
     position := if cfg.export_position then some res.2.2.2 else none })

/-- The object loop of lines 195-338; `bones` is a Python dict keyed by
`obj.name`. -/
def objLoop (env : Env) (cfg : Config) (start stop : ℤ) :
    LoopSt → List (String × ObjStruct) → List String → LoopSt × List (String × ObjStruct)
  | st, bones, [] => (st, bones)
  | st, bones, n :: rest =>
    let r := objBody env cfg start stop st n
    objLoop env cfg start stop r.1 (dictInsert bones n r.2) rest

/-- The `export_root` document of lines 341-346 (the `animation_data` of
line 189 inlined). -/
structure ExportRoot where
  format_version : String
  animation_length : ℚ
  bones : List (String × ObjStruct)
deriving DecidableEq, Repr

/-- Operator return statuses. -/
inductive OpStatus | FINISHED | CANCELLED
deriving DecidableEq, Repr

/-- Observable outcome of one `execute` run: the status, the scene's current
frame when `execute` returns, the document delivered to the sink (`none` when
nothing was written), and the trace of object evaluations performed. -/
structure ExecResult where
  status : OpStatus
  finalFrame : ℤ
  doc : Option ExportRoot
  sampled : List (String × ℤ)

/-- Lines 181-184: the frame range, with an inverted range auto-corrected by
swapping `start` and `end`. -/
def normRange (cfg : Config) : ℤ × ℤ :=
  if cfg.end_frame < cfg.start_frame then (cfg.end_frame, cfg.start_frame)
  else (cfg.start_frame, cfg.end_frame)

/-- Lines 167-358: `ExportAnimJSON.execute`.  Empty object set: warn and
return `CANCELLED` before anything is sampled.  Inverted range: swap.  After
the loops, write the document (delivering it only when the write succeeds) and
restore the original frame on both exits. -/
def execute (env : Env) (cfg : Config) : ExecResult :=
  let orig_frame := env.frame_current
  let objects := objectsOf env cfg
  match objects with
  | [] =>
    { status := .CANCELLED, finalFrame := orig_frame, doc := none, sampled := [] }
  | o :: os =>
    let se := normRange cfg
    let start := se.1
    let stop := se.2
    let animation_length := ((stop - start + 1) : ℚ) / EXPORT_FPS
    let st0 : LoopSt :=
      { prevQuats := fun _ => none, prevExp := fun _ => none
        curFrame := orig_frame, trace := [] }
    let run := objLoop env cfg start stop st0 [] (o :: os)
    let doc : ExportRoot :=
      { format_version := "1.8.0", animation_length := animation_length
        bones := run.2 }
    let stEnd := { run.1 with curFrame := orig_frame }
    if env.writeOk then
      { status := .FINISHED, finalFrame := stEnd.curFrame, doc := some doc
        sampled := stEnd.trace }
    else
      { status := .CANCELLED, finalFrame := stEnd.curFrame, doc := none
        sampled := stEnd.trace }

/-- The rotation channel of one object in isolation: exactly the rotation part
of `frameBody`/`frameLoop`, with the two dict entries for this object's name
carried explicitly.  (`rotChan_localize` below proves `execute` produces this.) -/
def rotChanCode (cfg : Config) (toE : Quat → Triple) (dpr piq : ℚ)
    (getQ : ℤ → Quat) (base_rot : Triple) :
    Option Quat → Option Triple → List ℤ → List (ℚ × Triple)
  | _, _, [] => []
  | pq, pe, f :: rest =>
    let qr := rotBody cfg toE dpr piq base_rot pq pe (getQ f)
    (timeKey (f / EXPORT_FPS), round5T qr.2) ::
      rotChanCode cfg toE dpr piq getQ base_rot (some qr.1) (some qr.2) rest

/-- Modelled from the spec (§2, §4.4–§4.6): one frame of the rotation pipeline
with the stages in the order the spec asserts — ContinuityFilter, Euler
conversion (+ degrees), per-axis inversion, then UnwrapSearch (against the
post-search `lastExportedEuler`, which it updates), then the Normalizer
(subtracting the un-permuted baseline), and the axis permutation strictly
last.  Returns the stored quaternion, the stored `lastExportedEuler`, and the
emitted (pre-rounding) triple. -/
def rotBodySpec (cfg : Config) (toE : Quat → Triple) (dpr piq : ℚ) (rawBase : Triple)
    (pq : Option Quat) (pe : Option Triple) (q0 : Quat) : Quat × Triple × Triple :=
  let q := contFilter pq q0
  let r := convertInvert cfg toE dpr q
  let r :=
    if cfg.use_axis_unwrap then
      closest_euler_equiv pe r cfg.export_degrees piq cfg.unwrap_max_shift
    else r
  let out := if cfg.zero_rot_at_start then sub3 r rawBase else r
  let out := applySwap cfg.rotation_swap out
  (q, r, out)

/-- Modelled from the spec: the rotation channel produced by the spec-ordered
pipeline (`rotBodySpec` per frame, rounding last). -/
def rotChanSpec (cfg : Config) (toE : Quat → Triple) (dpr piq : ℚ)
    (getQ : ℤ → Quat) (rawBase : Triple) :
    Option Quat → Option Triple → List ℤ → List (ℚ × Triple)
  | _, _, [] => []
  | pq, pe, f :: rest =>
    let qr := rotBodySpec cfg toE dpr piq rawBase pq pe (getQ f)
    (timeKey (f / EXPORT_FPS), round5T qr.2.2) ::
      rotChanSpec cfg toE dpr piq getQ rawBase (some qr.1) (some qr.2.1) rest

/-! ## First-minimum characterisation of the `best`/`best_dist` scan -/

/-- `b` is the first element of `l` attaining the minimum of `f` over `l`:
everything strictly before it is strictly worse, everything at or after is no
better.  This is exactly "minimum value, first-seen wins ties". -/
def IsFirstMin (f : α → ℚ) (l : List α) (b : α) : Prop :=
  ∃ l₁ l₂, l = l₁ ++ b :: l₂ ∧ (∀ c ∈ l₁, f b < f c) ∧ (∀ c ∈ l₂, f b ≤ f c)

theorem IsFirstMin.mem {f : α → ℚ} {l : List α} {b : α} (h : IsFirstMin f l b) :
    b ∈ l := by
  obtain ⟨l₁, l₂, rfl, -, -⟩ := h
  simp

theorem IsFirstMin.le {f : α → ℚ} {l : List α} {b : α} (h : IsFirstMin f l b) :
    ∀ c ∈ l, f b ≤ f c := by
  obtain ⟨l₁, l₂, rfl, hlt, hle⟩ := h
  intro c hc
  rcases List.mem_append.mp hc with hc | hc
  · exact le_of_lt (hlt c hc)
  · rcases List.mem_cons.mp hc with rfl | hc
    · exact le_refl _
    · exact hle c hc

theorem IsFirstMin.congr {f g : α → ℚ} (hfg : ∀ x, f x = g x) {l : List α} {b : α}
    (h : IsFirstMin f l b) : IsFirstMin g l b := by
  obtain ⟨l₁, l₂, rfl, hlt, hle⟩ := h
  exact ⟨l₁, l₂, rfl, fun c hc => hfg b ▸ hfg c ▸ hlt c hc,
    fun c hc => hfg b ▸ hfg c ▸ hle c hc⟩

theorem isFirstMin_unique {f : α → ℚ} {l : List α} {b b' : α}
    (h : IsFirstMin f l b) (h' : IsFirstMin f l b') : b = b' := by
  obtain ⟨l₁, l₂, rfl, hlt, hle⟩ := h
  obtain ⟨l₁', l₂', heq, hlt', hle'⟩ := h'
  rcases List.append_eq_append_iff.mp heq with ⟨a', ha1, ha2⟩ | ⟨c', hc1, hc2⟩
  · cases a' with
    | nil =>
      obtain ⟨rfl, -⟩ : b = b' ∧ l₂ = l₂' := by simpa using ha2
      rfl
    | cons x xs =>
      obtain ⟨rfl, rfl⟩ : b = x ∧ l₂ = xs ++ b' :: l₂' := by simpa using ha2
      have h1 : f b ≤ f b' := hle b' (by simp)
      have h2 : f b' < f b := hlt' b (by simp [ha1])
      exact absurd h1 (not_le_of_lt h2)
  · cases c' with
    | nil =>
      obtain ⟨rfl, -⟩ : b' = b ∧ l₂' = l₂ := by simpa using hc2
      rfl
    | cons x xs =>
      obtain ⟨rfl, rfl⟩ : b' = x ∧ l₂' = xs ++ b :: l₂ := by simpa using hc2
      have h1 : f b' ≤ f b := hle' b (by simp)
      have h2 : f b < f b' := hlt b' (by simp [hc1])
      exact absurd h1 (not_le_of_lt h2)

theorem runMin_cons_some (f : α → ℚ) (b : α) (bd : ℚ) (c : α) (t : List α) :
    runMin f (some (b, bd)) (c :: t)
      = runMin f (if f c < bd then some (c, f c) else some (b, bd)) t := rfl

/-- The `best`/`best_dist` scan started at `best = b` returns the first
minimum of `b :: l`. -/
theorem runMin_go (f : α → ℚ) :
    ∀ (l : List α) (b : α), ∃ bq, runMin f (some (b, f b)) l = some (bq, f bq) ∧
      IsFirstMin f (b :: l) bq
  | [], b => ⟨b, rfl, [], [], rfl, by simp, by simp⟩
  | c :: t, b => by
    rw [runMin_cons_some]
    by_cases h : f c < f b
    · rw [if_pos h]
      obtain ⟨bq, hrun, l₁, l₂, hdec, hlt, hle⟩ := runMin_go f t c
      have hbq_le_c : f bq ≤ f c := by
        cases l₁ with
        | nil =>
          obtain ⟨rfl, -⟩ : c = bq ∧ t = l₂ := by
            simpa using hdec
          exact le_refl _
        | cons a l₁' =>
          obtain ⟨rfl, -⟩ : c = a ∧ t = l₁' ++ bq :: l₂ := by
            simpa using hdec
          exact le_of_lt (hlt c (by simp))
      refine ⟨bq, hrun, b :: l₁, l₂, ?_, ?_, hle⟩
      · simpa using congrArg (b :: ·) hdec
      · intro x hx
        rcases List.mem_cons.mp hx with rfl | hx
        · exact lt_of_le_of_lt hbq_le_c h
        · exact hlt x hx
    · rw [if_neg h]
      have hbc : f b ≤ f c := le_of_not_lt h
      obtain ⟨bq, hrun, l₁, l₂, hdec, hlt, hle⟩ := runMin_go f t b
      cases l₁ with
      | nil =>
        obtain ⟨rfl, rfl⟩ : b = bq ∧ t = l₂ := by
          simpa using hdec
        refine ⟨b, hrun, [], c :: t, rfl, by simp, ?_⟩
        intro x hx
        rcases List.mem_cons.mp hx with rfl | hx
        · exact hbc
        · exact hle x hx
      | cons a l₁' =>
        obtain ⟨rfl, rfl⟩ : b = a ∧ t = l₁' ++ bq :: l₂ := by
          simpa using hdec
        refine ⟨bq, hrun, b :: c :: l₁', l₂, by simp, ?_, hle⟩
        have hqb : f bq < f b := hlt b (by simp)
        intro x hx
        rcases List.mem_cons.mp hx with rfl | hx
        · exact hqb
        · rcases List.mem_cons.mp hx with rfl | hx
          · exact lt_of_lt_of_le hqb hbc
          · exact hlt x (by simp [hx])

/-- The scan started from `best = None` on a nonempty list returns the first
minimum of the list. -/
theorem runMin_none (f : α → ℚ) (a : α) (t : List α) :
    ∃ bq, runMin f none (a :: t) = some (bq, f bq) ∧ IsFirstMin f (a :: t) bq :=
  runMin_go f t a

/-! ## Separability of the three-axis search -/

/-- Cartesian product of two lists in nested-loop order (outer on the left). -/
def pList (l₁ : List α) (l₂ : List β) : List (α × β) :=
  l₁.flatMap fun a => l₂.map fun b => (a, b)

/-- Over a product list with an additively separable cost, the first minimum
is the pair of componentwise first minima — the reason the nested-loop search
decomposes per axis, ties included. -/
theorem isFirstMin_pList {f₁ : α → ℚ} {f₂ : β → ℚ} {l₁ : List α} {l₂ : List β}
    {b₁ : α} {b₂ : β} (h₁ : IsFirstMin f₁ l₁ b₁) (h₂ : IsFirstMin f₂ l₂ b₂) :
    IsFirstMin (fun p => f₁ p.1 + f₂ p.2) (pList l₁ l₂) (b₁, b₂) := by
  have h₂le := h₂.le
  obtain ⟨A₁, B₁, rfl, hlt₁, hle₁⟩ := h₁
  obtain ⟨A₂, B₂, hl₂, hlt₂, hle₂⟩ := h₂
  have h₁le : ∀ a ∈ A₁ ++ b₁ :: B₁, f₁ b₁ ≤ f₁ a := by
    intro a ha
    rcases List.mem_append.mp ha with ha | ha
    · exact le_of_lt (hlt₁ a ha)
    · rcases List.mem_cons.mp ha with rfl | ha
      · exact le_refl _
      · exact hle₁ a ha
  refine ⟨pList A₁ l₂ ++ A₂.map (fun x => (b₁, x)),
          B₂.map (fun x => (b₁, x)) ++ pList B₁ l₂, ?_, ?_, ?_⟩
  · rw [pList, List.flatMap_append, List.flatMap_cons]
    rw [show l₂.map (fun b => (b₁, b))
          = A₂.map (fun x => (b₁, x)) ++ (b₁, b₂) :: B₂.map (fun x => (b₁, x)) by
        rw [hl₂, List.map_append, List.map_cons]]
    simp [pList, List.append_assoc]
  · intro c hc
    rcases List.mem_append.mp hc with hc | hc
    · obtain ⟨a, ha, x, hx, rfl⟩ := by
        simpa [pList, List.mem_flatMap, List.mem_map] using hc
      exact add_lt_add_of_lt_of_le (hlt₁ a ha) (h₂le x hx)
    · obtain ⟨x, hx, rfl⟩ := List.mem_map.mp hc
      have : f₂ b₂ < f₂ x := hlt₂ x hx
      simpa using add_lt_add_of_le_of_lt (le_refl (f₁ b₁)) this
  · intro c hc
    rcases List.mem_append.mp hc with hc | hc
    · obtain ⟨x, hx, rfl⟩ := List.mem_map.mp hc
      have : f₂ b₂ ≤ f₂ x := hle₂ x hx
      simpa using add_le_add (le_refl (f₁ b₁)) this
    · obtain ⟨a, ha, x, hx, rfl⟩ := by
        simpa [pList, List.mem_flatMap, List.mem_map] using hc
      exact add_le_add (h₁le a (by simp [ha])) (h₂le x hx)

/-- The per-axis candidate list `c + k*full` for `k = -K, …, K`. -/
def cands1 (c full : ℚ) (K : ℕ) : List ℚ :=
  (shiftRange K).map (fun k : ℤ => c + (k : ℚ) * full)

/-- The nested-loop candidate list is the product of the per-axis candidate
lists. -/
theorem cands3_eq_pList (cur : Triple) (full : ℚ) (K : ℕ) :
    cands3 cur full K
      = pList (cands1 cur.1 full K) (pList (cands1 cur.2.1 full K) (cands1 cur.2.2 full K)) := by
  simp only [cands3, pList, cands1, shiftBy, List.flatMap_map, List.map_flatMap,
    List.map_map, Function.comp_def]

theorem zero_mem_shiftRange (K : ℕ) : (0 : ℤ) ∈ shiftRange K := by
  unfold shiftRange
  refine List.mem_map.mpr ⟨K, List.mem_range.mpr ?_, ?_⟩
  · omega
  · omega

theorem cands1_ne_nil (c full : ℚ) (K : ℕ) : cands1 c full K ≠ [] :=
  List.ne_nil_of_mem (List.mem_map.mpr ⟨0, zero_mem_shiftRange K, rfl⟩)

/-- The per-axis outcome of the scan: the first minimum of `cands1`. -/
def best1 (p c full : ℚ) (K : ℕ) : ℚ :=
  match runMin (fun x => (x - p) * (x - p)) none (cands1 c full K) with
  | some bd => bd.1
  | none => c

theorem best1_isFirstMin (p c full : ℚ) (K : ℕ) :
    IsFirstMin (fun x => (x - p) * (x - p)) (cands1 c full K) (best1 p c full K) := by
  obtain ⟨a, t, ht⟩ := List.exists_cons_of_ne_nil (cands1_ne_nil c full K)
  obtain ⟨bq, hrun, hfm⟩ := runMin_none (fun x => (x - p) * (x - p)) a t
  rw [← ht] at hrun hfm
  have : best1 p c full K = bq := by simp [best1, hrun]
  rw [this]
  exact hfm

/-- Separation: the triple-loop search decomposes into three independent
per-axis first-minimum searches. -/
theorem cee_sep (p cur : Triple) (deg : Bool) (piq : ℚ) (K : ℕ) :
    closest_euler_equiv (some p) cur deg piq K
      = (best1 p.1 cur.1 (fullTurn deg piq) K,
         best1 p.2.1 cur.2.1 (fullTurn deg piq) K,
         best1 p.2.2 cur.2.2 (fullTurn deg piq) K) := by
  have h1 := best1_isFirstMin p.1 cur.1 (fullTurn deg piq) K
  have h2 := best1_isFirstMin p.2.1 cur.2.1 (fullTurn deg piq) K
  have h3 := best1_isFirstMin p.2.2 cur.2.2 (fullTurn deg piq) K
  have hprod := isFirstMin_pList h1 (isFirstMin_pList h2 h3)
  rw [← cands3_eq_pList] at hprod
  have hsep : IsFirstMin (fun cand => sqDist cand p)
      (cands3 cur (fullTurn deg piq) K)
      (best1 p.1 cur.1 (fullTurn deg piq) K,
       best1 p.2.1 cur.2.1 (fullTurn deg piq) K,
       best1 p.2.2 cur.2.2 (fullTurn deg piq) K) := by
    refine hprod.congr (fun x => ?_)
    simp only [sqDist]
    ring
  have hne : cands3 cur (fullTurn deg piq) K ≠ [] := by
    have hmem : shiftBy cur (fullTurn deg piq) (0, 0, 0) ∈ cands3 cur (fullTurn deg piq) K := by
      simp only [cands3, List.mem_flatMap, List.mem_map]
      exact ⟨0, zero_mem_shiftRange K, 0, zero_mem_shiftRange K, 0, zero_mem_shiftRange K, rfl⟩
    exact List.ne_nil_of_mem hmem
  obtain ⟨a, t, ht⟩ := List.exists_cons_of_ne_nil hne
  obtain ⟨bq, hrun, hfm⟩ := runMin_none (fun cand => sqDist cand p) a t
  rw [← ht] at hrun hfm
  have hbq := isFirstMin_unique hfm hsep
  simp only [closest_euler_equiv, hrun]
  exact hbq

/-! ## Consequences of separation -/

/-- The scan commutes with relabelling the scanned list along a
cost-preserving map. -/
theorem runMin_map (g : α → β) (f : α → ℚ) (fb : β → ℚ) (hf : ∀ x, fb (g x) = f x) :
    ∀ (l : List α) (acc : Option (α × ℚ)),
      runMin fb (Option.map (fun bd : α × ℚ => (g bd.1, bd.2)) acc) (l.map g)
        = Option.map (fun bd : α × ℚ => (g bd.1, bd.2)) (runMin f acc l)
  | [], acc => rfl
  | c :: t, acc => by
    have hmain : ∀ acc' : Option (α × ℚ),
        runMin fb (Option.map (fun bd : α × ℚ => (g bd.1, bd.2)) acc') (t.map g)
          = Option.map (fun bd : α × ℚ => (g bd.1, bd.2)) (runMin f acc' t) :=
      fun acc' => runMin_map g f fb hf t acc'
    cases acc with
    | none =>
      have e1 : runMin fb (Option.map (fun bd : α × ℚ => (g bd.1, bd.2)) none) ((c :: t).map g)
          = runMin fb (Option.map (fun bd : α × ℚ => (g bd.1, bd.2)) (some (c, f c))) (t.map g) := by
        show runMin fb (some (g c, fb (g c))) (t.map g)
            = runMin fb (some (g c, f c)) (t.map g)
        rw [hf c]
      rw [e1, hmain (some (c, f c))]
      rfl
    | some bd =>
      obtain ⟨b, d⟩ := bd
      have estep : runMin fb (Option.map (fun bd : α × ℚ => (g bd.1, bd.2)) (some (b, d)))
            ((c :: t).map g)
          = runMin fb (if f c < d then some (g c, f c) else some (g b, d)) (t.map g) := by
        show runMin fb (if fb (g c) < d then some (g c, fb (g c)) else some (g b, d)) (t.map g)
            = runMin fb (if f c < d then some (g c, f c) else some (g b, d)) (t.map g)
        rw [hf c]
      rw [estep]
      by_cases hlt : f c < d
      · rw [if_pos hlt]
        have hm : (some (g c, f c) : Option (β × ℚ))
            = Option.map (fun bd : α × ℚ => (g bd.1, bd.2)) (some (c, f c)) := rfl
        rw [hm, hmain (some (c, f c))]
        have hr : runMin f (some (b, d)) (c :: t) = runMin f (some (c, f c)) t := by
          rw [runMin_cons_some, if_pos hlt]
        rw [hr]
      · rw [if_neg hlt]
        have hm : (some (g b, d) : Option (β × ℚ))
            = Option.map (fun bd : α × ℚ => (g bd.1, bd.2)) (some (b, d)) := rfl
        rw [hm, hmain (some (b, d))]
        have hr : runMin f (some (b, d)) (c :: t) = runMin f (some (b, d)) t := by
          rw [runMin_cons_some, if_neg hlt]
        rw [hr]

/-- Translation invariance of the per-axis search. -/
theorem best1_translate (p c full b : ℚ) (K : ℕ) :
    best1 (p - b) (c - b) full K = best1 p c full K - b := by
  have hl : cands1 (c - b) full K = (cands1 c full K).map (fun x => x - b) := by
    unfold cands1
    rw [List.map_map]
    have hfun : ((fun x => x - b) ∘ fun k : ℤ => c + (k : ℚ) * full)
        = (fun k : ℤ => (c - b) + (k : ℚ) * full) := by
      funext k
      simp only [Function.comp_apply]
      ring
    rw [hfun]
  have hmap : ∀ x : ℚ, (fun y : ℚ => (y - (p - b)) * (y - (p - b))) ((fun x => x - b) x)
      = (fun x : ℚ => (x - p) * (x - p)) x := by
    intro x
    simp only
    ring
  have hrm0 : runMin (fun y : ℚ => (y - (p - b)) * (y - (p - b))) none
        ((cands1 c full K).map (fun x => x - b))
      = Option.map (fun bd : ℚ × ℚ => (bd.1 - b, bd.2))
          (runMin (fun x : ℚ => (x - p) * (x - p)) none (cands1 c full K)) :=
    runMin_map (fun x : ℚ => x - b) (fun x : ℚ => (x - p) * (x - p))
      (fun y : ℚ => (y - (p - b)) * (y - (p - b))) hmap (cands1 c full K) none
  unfold best1
  rw [hl, hrm0]
  cases hc : runMin (fun x : ℚ => (x - p) * (x - p)) none (cands1 c full K) with
  | none => simp
  | some bd => simp

/-- Translation invariance of the whole search. -/
theorem cee_translate (p cur B : Triple) (deg : Bool) (piq : ℚ) (K : ℕ) :
    closest_euler_equiv (some (sub3 p B)) (sub3 cur B) deg piq K
      = sub3 (closest_euler_equiv (some p) cur deg piq K) B := by
  rw [cee_sep, cee_sep]
  simp only [sub3, best1_translate]

/-- Axis-permutation equivariance of the whole search, tie-breaking included:
permuting `prev` and `cur` alike permutes the result. -/
theorem cee_swap (c : SwapCode) (p cur : Triple) (deg : Bool) (piq : ℚ) (K : ℕ) :
    closest_euler_equiv (some (applySwap c p)) (applySwap c cur) deg piq K
      = applySwap c (closest_euler_equiv (some p) cur deg piq K) := by
  rw [cee_sep, cee_sep]
  cases c <;> rfl

theorem best1_zero_shift (p c full : ℚ) : best1 p c full 0 = c := by
  have h1 : List.range 1 = [0] := rfl
  simp [best1, cands1, shiftRange, h1, runMin]

/-- With `max_shift = 0` the search returns `cur` unchanged for any `prev`. -/
theorem cee_zero_shift (prev : Option Triple) (cur : Triple) (deg : Bool) (piq : ℚ) :
    closest_euler_equiv prev cur deg piq 0 = cur := by
  cases prev with
  | none => rfl
  | some p =>
    rw [cee_sep]
    simp [best1_zero_shift]

theorem mem_shiftRange (K : ℕ) (k : ℤ) : k ∈ shiftRange K ↔ -(K : ℤ) ≤ k ∧ k ≤ K := by
  unfold shiftRange
  simp only [List.mem_map, List.mem_range]
  constructor
  · rintro ⟨i, hi, rfl⟩
    omega
  · rintro ⟨h1, h2⟩
    exact ⟨(k + K).toNat, by omega, by omega⟩

/-- Splitting the shift range at its middle element `0`. -/
theorem shiftRange_split (K : ℕ) :
    shiftRange K
      = ((List.range K).map (fun i : ℕ => (i : ℤ) - K)) ++ (0 : ℤ) ::
          ((List.range K).map (fun i : ℕ => (i : ℤ) + 1)) := by
  unfold shiftRange
  have h2 : 2 * K + 1 = K + (K + 1) := by omega
  rw [h2, List.range_add, List.map_append]
  congr 1
  rw [List.range_succ_eq_map]
  simp only [List.map_cons, List.map_map]
  congr 1
  · push_cast
    ring
  · refine List.map_congr_left ?_
    intro i _
    simp only [Function.comp_apply]
    push_cast
    omega

/-- A nonzero whole-turn shift strictly increases the axis distance once the
current value is strictly within a half turn of the previous one. -/
theorem axis_noshift_min (p r full : ℚ) (hf : 0 < full) (h : |r - p| < full / 2)
    (s : ℤ) (hs : s ≠ 0) :
    (r - p) * (r - p) < (r + (s : ℚ) * full - p) * (r + (s : ℚ) * full - p) := by
  have h1 : (1 : ℚ) ≤ |(s : ℚ)| := by
    have := Int.one_le_abs hs
    calc (1 : ℚ) = ((1 : ℤ) : ℚ) := by norm_num
      _ ≤ ((|s| : ℤ) : ℚ) := by exact_mod_cast this
      _ = |(s : ℚ)| := by push_cast; ring
  have h2 : full ≤ |(s : ℚ) * full| := by
    rw [abs_mul, abs_of_pos hf]
    nlinarith
  have h3 : |r - p| < |(r - p) + (s : ℚ) * full| := by
    have ht := abs_sub_abs_le_abs_sub ((s : ℚ) * full) (-(r - p))
    rw [abs_neg] at ht
    have he : (s : ℚ) * full - -(r - p) = (r - p) + (s : ℚ) * full := by ring
    rw [he] at ht
    linarith
  calc (r - p) * (r - p) = |r - p| * |r - p| := (abs_mul_abs_self _).symm
    _ < |(r - p) + (s : ℚ) * full| * |(r - p) + (s : ℚ) * full| :=
        mul_self_lt_mul_self (abs_nonneg _) h3
    _ = ((r - p) + (s : ℚ) * full) * ((r - p) + (s : ℚ) * full) := abs_mul_abs_self _
    _ = (r + (s : ℚ) * full - p) * (r + (s : ℚ) * full - p) := by ring

/-- Once within a strict half turn of `prev` on an axis, the axis search is a
fixpoint. -/
theorem best1_fix (p r full : ℚ) (hf : 0 < full) (K : ℕ) (h : |r - p| < full / 2) :
    best1 p r full K = r := by
  have hA : ∀ x ∈ (List.range K).map (fun i : ℕ => r + ((i : ℤ) - K : ℤ) * full),
      (r - p) * (r - p) < (x - p) * (x - p) := by
    intro x hx
    obtain ⟨i, hi, rfl⟩ := List.mem_map.mp hx
    exact axis_noshift_min p r full hf h _ (by
      have := List.mem_range.mp hi
      omega)
  have hB : ∀ x ∈ (List.range K).map (fun i : ℕ => r + ((i : ℤ) + 1 : ℤ) * full),
      (r - p) * (r - p) ≤ (x - p) * (x - p) := by
    intro x hx
    obtain ⟨i, hi, rfl⟩ := List.mem_map.mp hx
    exact le_of_lt (axis_noshift_min p r full hf h _ (by omega))
  have hdec : cands1 r full K
      = ((List.range K).map (fun i : ℕ => r + ((i : ℤ) - K : ℤ) * full)) ++ r ::
          ((List.range K).map (fun i : ℕ => r + ((i : ℤ) + 1 : ℤ) * full)) := by
    unfold cands1
    rw [shiftRange_split, List.map_append, List.map_cons, List.map_map, List.map_map]
    simp [Function.comp_def]
  have hfm : IsFirstMin (fun x => (x - p) * (x - p)) (cands1 r full K) r :=
    ⟨_, _, hdec, hA, hB⟩
  exact isFirstMin_unique (best1_isFirstMin p r full K) hfm

/-! ## Enumeration order of the nested loops -/

/-- Strict lexicographic order on shift triples, `kx` most significant. -/
def lex3 (a b : ℤ × ℤ × ℤ) : Prop :=
  a.1 < b.1 ∨ (a.1 = b.1 ∧ (a.2.1 < b.2.1 ∨ (a.2.1 = b.2.1 ∧ a.2.2 < b.2.2)))

/-- The shift triples `(kx, ky, kz)` in the order the nested loops of
lines 41-43 visit them. -/
def lexShifts (K : ℕ) : List (ℤ × ℤ × ℤ) :=
  (shiftRange K).flatMap fun kx =>
    (shiftRange K).flatMap fun ky =>
      (shiftRange K).map fun kz => (kx, ky, kz)

/-- The loop candidates are exactly the shift triples, in loop order, applied
to `cur`. -/
theorem cands3_eq_map_lexShifts (cur : Triple) (full : ℚ) (K : ℕ) :
    cands3 cur full K = (lexShifts K).map (shiftBy cur full) := by
  simp only [cands3, lexShifts, List.map_flatMap, List.map_map, Function.comp_def]

theorem pairwise_flatMap_of {R : β → β → Prop} {g : α → List β} :
    ∀ {l : List α}, (∀ a ∈ l, (g a).Pairwise R) →
      l.Pairwise (fun a a' => ∀ x ∈ g a, ∀ y ∈ g a', R x y) →
      (l.flatMap g).Pairwise R
  | [], _, _ => by simp
  | a :: t, hg, hp => by
    rw [List.flatMap_cons, List.pairwise_append]
    obtain ⟨hhead, htail⟩ := List.pairwise_cons.mp hp
    refine ⟨hg a (by simp), pairwise_flatMap_of (fun x hx => hg x (by simp [hx])) htail, ?_⟩
    intro x hx y hy
    obtain ⟨a', ha', hy'⟩ := List.mem_flatMap.mp hy
    exact hhead a' ha' x hx y hy'

theorem shiftRange_sorted (K : ℕ) : (shiftRange K).Pairwise (· < ·) := by
  unfold shiftRange
  rw [List.pairwise_map]
  refine List.Pairwise.imp ?_ (List.pairwise_lt_range (2 * K + 1))
  intro a b h
  omega

/-- The nested loops enumerate the shift triples in strictly ascending
lexicographic order. -/
theorem lexShifts_sorted (K : ℕ) : (lexShifts K).Pairwise lex3 := by
  unfold lexShifts
  refine pairwise_flatMap_of ?_ ?_
  · intro kx _
    refine pairwise_flatMap_of ?_ ?_
    · intro ky _
      rw [List.pairwise_map]
      refine List.Pairwise.imp ?_ (shiftRange_sorted K)
      intro a b h
      exact Or.inr ⟨rfl, Or.inr ⟨rfl, h⟩⟩
    · refine List.Pairwise.imp ?_ (shiftRange_sorted K)
      intro ky ky' h x hx y hy
      obtain ⟨kz, -, rfl⟩ := List.mem_map.mp hx
      obtain ⟨kz', -, rfl⟩ := List.mem_map.mp hy
      exact Or.inr ⟨rfl, Or.inl h⟩
  · refine List.Pairwise.imp ?_ (shiftRange_sorted K)
    intro kx kx' h x hx y hy
    obtain ⟨ky, -, hx2⟩ := List.mem_flatMap.mp hx
    obtain ⟨kz, -, rfl⟩ := List.mem_map.mp hx2
    obtain ⟨ky', -, hy2⟩ := List.mem_flatMap.mp hy
    obtain ⟨kz', -, rfl⟩ := List.mem_map.mp hy2
    exact Or.inl h

/-- The enumerated shift triples are exactly `[-K,K]³`. -/
theorem mem_lexShifts (K : ℕ) (k : ℤ × ℤ × ℤ) :
    k ∈ lexShifts K ↔ (-(K : ℤ) ≤ k.1 ∧ k.1 ≤ K) ∧ (-(K : ℤ) ≤ k.2.1 ∧ k.2.1 ≤ K)
      ∧ (-(K : ℤ) ≤ k.2.2 ∧ k.2.2 ≤ K) := by
  unfold lexShifts
  simp only [List.mem_flatMap, List.mem_map, mem_shiftRange]
  constructor
  · rintro ⟨kx, hkx, ky, hky, kz, hkz, rfl⟩
    exact ⟨hkx, hky, hkz⟩
  · rintro ⟨h1, h2, h3⟩
    exact ⟨k.1, h1, k.2.1, h2, k.2.2, h3, rfl⟩

/-- Each axis of the search result is the candidate value of some in-range
shift. -/
theorem best1_mem_shift (p c full : ℚ) (K : ℕ) :
    ∃ k : ℤ, (-(K : ℤ) ≤ k ∧ k ≤ K) ∧ best1 p c full K = c + (k : ℚ) * full := by
  have h := (best1_isFirstMin p c full K).mem
  unfold cands1 at h
  obtain ⟨k, hk, he⟩ := List.mem_map.mp h
  exact ⟨k, (mem_shiftRange K k).mp hk, he.symm⟩

/-! ## The code's stage order versus the spec's stage order -/

theorem applySwap_sub (c : SwapCode) (a b : Triple) :
    applySwap c (sub3 a b) = sub3 (applySwap c a) (applySwap c b) := by
  cases c <;> rfl

/-- Per frame, the code's body (swap, then zero, then search — lines 268-279)
computes exactly the permuted-and-zeroed image of the spec-ordered body
(search, then zero, then swap), given the code's permuted baseline. -/
theorem rotBody_eq_spec (cfg : Config) (toE : Quat → Triple) (dpr piq : ℚ)
    (rawBase : Triple) (pq : Option Quat) (pe : Option Triple) (q0 : Quat) :
    rotBody cfg toE dpr piq (applySwap cfg.rotation_swap rawBase) pq
        (Option.map (fun s => applySwap cfg.rotation_swap
          (if cfg.zero_rot_at_start then sub3 s rawBase else s)) pe) q0
      = ((rotBodySpec cfg toE dpr piq rawBase pq pe q0).1,
         applySwap cfg.rotation_swap
           (if cfg.zero_rot_at_start
            then sub3 (rotBodySpec cfg toE dpr piq rawBase pq pe q0).2.1 rawBase
            else (rotBodySpec cfg toE dpr piq rawBase pq pe q0).2.1)) := by
  unfold rotBody rotBodySpec
  cases pe with
  | none =>
    cases hz : cfg.zero_rot_at_start <;> cases hu : cfg.use_axis_unwrap <;>
      simp [closest_euler_equiv, applySwap_sub]
  | some s =>
    cases hz : cfg.zero_rot_at_start <;> cases hu : cfg.use_axis_unwrap
    · simp
    · simp
      rw [cee_swap]
    · simp [applySwap_sub]
    · simp
      rw [← applySwap_sub, cee_swap, cee_translate]

/-- Channel-level equality of the code's stage order and the spec's stage
order, for related histories. -/
theorem rotChan_code_eq_spec_aux (cfg : Config) (toE : Quat → Triple) (dpr piq : ℚ)
    (getQ : ℤ → Quat) (rawBase : Triple) :
    ∀ (frames : List ℤ) (pq : Option Quat) (pe : Option Triple),
      rotChanCode cfg toE dpr piq getQ (applySwap cfg.rotation_swap rawBase) pq
          (Option.map (fun s => applySwap cfg.rotation_swap
            (if cfg.zero_rot_at_start then sub3 s rawBase else s)) pe) frames
        = rotChanSpec cfg toE dpr piq getQ rawBase pq pe frames
  | [], _, _ => rfl
  | f :: rest, pq, pe => by
    have hb := rotBody_eq_spec cfg toE dpr piq rawBase pq pe (getQ f)
    have ih := rotChan_code_eq_spec_aux cfg toE dpr piq getQ rawBase rest
      (some (rotBodySpec cfg toE dpr piq rawBase pq pe (getQ f)).1)
      (some (rotBodySpec cfg toE dpr piq rawBase pq pe (getQ f)).2.1)
    have ih2 : rotChanCode cfg toE dpr piq getQ (applySwap cfg.rotation_swap rawBase)
        (some (rotBodySpec cfg toE dpr piq rawBase pq pe (getQ f)).1)
        (some (applySwap cfg.rotation_swap
          (if cfg.zero_rot_at_start
           then sub3 (rotBodySpec cfg toE dpr piq rawBase pq pe (getQ f)).2.1 rawBase
           else (rotBodySpec cfg toE dpr piq rawBase pq pe (getQ f)).2.1))) rest
        = rotChanSpec cfg toE dpr piq getQ rawBase
            (some (rotBodySpec cfg toE dpr piq rawBase pq pe (getQ f)).1)
            (some (rotBodySpec cfg toE dpr piq rawBase pq pe (getQ f)).2.1) rest := ih
    unfold rotChanCode rotChanSpec
    simp only [hb]
    rw [ih2]
    rfl

/-- The full statement used for C1: starting with no history and the baseline
the code computes (the permuted `rawBase`), the code's per-frame order
(lines 252-283) emits exactly the channel of the spec-ordered pipeline. -/
theorem rotChan_code_eq_spec (cfg : Config) (toE : Quat → Triple) (dpr piq : ℚ)
    (getQ : ℤ → Quat) (rawBase : Triple) (frames : List ℤ) :
    rotChanCode cfg toE dpr piq getQ (applySwap cfg.rotation_swap rawBase) none none frames
      = rotChanSpec cfg toE dpr piq getQ rawBase none none frames :=
  rotChan_code_eq_spec_aux cfg toE dpr piq getQ rawBase frames none none

/-! ## Localisation: `execute`'s loops versus the per-object channel -/

theorem frameBody_rotEntry (env : Env) (cfg : Config) (n : String) (start : ℤ)
    (br bs bp : Triple) (st : LoopSt) (f : ℤ) (hr : cfg.export_rotation = true) :
    (frameBody env cfg n start br bs bp st f).2.1
      = some (timeKey ((f : ℚ) / EXPORT_FPS),
          round5T (rotBody cfg env.toEulerXYZ env.dpr env.piq br
            (st.prevQuats n) (st.prevExp n) (env.getQuat n f)).2) := by
  cases hs : cfg.export_scale <;> cases hp : cfg.export_position <;>
    simp [frameBody, hr, hs, hp]

theorem frameBody_rotEntry_off (env : Env) (cfg : Config) (n : String) (start : ℤ)
    (br bs bp : Triple) (st : LoopSt) (f : ℤ) (hr : cfg.export_rotation = false) :
    (frameBody env cfg n start br bs bp st f).2.1 = none := by
  cases hs : cfg.export_scale <;> cases hp : cfg.export_position <;>
    simp [frameBody, hr, hs, hp]

theorem frameBody_scaleEntry (env : Env) (cfg : Config) (n : String) (start : ℤ)
    (br bs bp : Triple) (st : LoopSt) (f : ℤ) :
    (frameBody env cfg n start br bs bp st f).2.2.1
      = (if cfg.export_scale
         then some (timeKey ((f : ℚ) / EXPORT_FPS),
            round5T (scaleBody cfg bs (env.getScale n f)))
         else none) := by
  cases hr : cfg.export_rotation <;> cases hs : cfg.export_scale <;>
    cases hp : cfg.export_position <;> simp [frameBody, hr, hs, hp]

theorem frameBody_posEntry (env : Env) (cfg : Config) (n : String) (start : ℤ)
    (br bs bp : Triple) (st : LoopSt) (f : ℤ) :
    (frameBody env cfg n start br bs bp st f).2.2.2
      = (if cfg.export_position
         then some (timeKey (((f : ℚ) - (start : ℚ)) / EXPORT_FPS),
            round5T (posBody cfg bp (env.getPos n f)))
         else none) := by
  cases hr : cfg.export_rotation <;> cases hs : cfg.export_scale <;>
    cases hp : cfg.export_position <;> simp [frameBody, hr, hs, hp]

theorem frameBody_prevQuats (env : Env) (cfg : Config) (n : String) (start : ℤ)
    (br bs bp : Triple) (st : LoopSt) (f : ℤ) (hr : cfg.export_rotation = true) :
    (frameBody env cfg n start br bs bp st f).1.prevQuats
      = (fun m => if m = n
          then some (rotBody cfg env.toEulerXYZ env.dpr env.piq br
            (st.prevQuats n) (st.prevExp n) (env.getQuat n f)).1
          else st.prevQuats m) := by
  cases hs : cfg.export_scale <;> cases hp : cfg.export_position <;>
    simp [frameBody, hr, hs, hp]

theorem frameBody_prevExp (env : Env) (cfg : Config) (n : String) (start : ℤ)
    (br bs bp : Triple) (st : LoopSt) (f : ℤ) (hr : cfg.export_rotation = true) :
    (frameBody env cfg n start br bs bp st f).1.prevExp
      = (fun m => if m = n
          then some (rotBody cfg env.toEulerXYZ env.dpr env.piq br
            (st.prevQuats n) (st.prevExp n) (env.getQuat n f)).2
          else st.prevExp m) := by
  cases hs : cfg.export_scale <;> cases hp : cfg.export_position <;>
    simp [frameBody, hr, hs, hp]

theorem frameBody_prevQuats_off (env : Env) (cfg : Config) (n : String) (start : ℤ)
    (br bs bp : Triple) (st : LoopSt) (f : ℤ) (hr : cfg.export_rotation = false) :
    (frameBody env cfg n start br bs bp st f).1.prevQuats = st.prevQuats := by
  cases hs : cfg.export_scale <;> cases hp : cfg.export_position <;>
    simp [frameBody, hr, hs, hp]

theorem frameBody_prevExp_off (env : Env) (cfg : Config) (n : String) (start : ℤ)
    (br bs bp : Triple) (st : LoopSt) (f : ℤ) (hr : cfg.export_rotation = false) :
    (frameBody env cfg n start br bs bp st f).1.prevExp = st.prevExp := by
  cases hs : cfg.export_scale <;> cases hp : cfg.export_position <;>
    simp [frameBody, hr, hs, hp]

/-- With rotation export on, the frame loop's rotation channel is exactly the
standalone per-object channel, driven by this object's two dict entries. -/
theorem frameLoop_rot (env : Env) (cfg : Config) (n : String) (start : ℤ)
    (br bs bp : Triple) (hr : cfg.export_rotation = true) :
    ∀ (frames : List ℤ) (st : LoopSt),
      (frameLoop env cfg n start br bs bp st frames).2.1
        = rotChanCode cfg env.toEulerXYZ env.dpr env.piq (env.getQuat n) br
            (st.prevQuats n) (st.prevExp n) frames
  | [], _ => rfl
  | f :: rest, st => by
    have h1 := frameBody_rotEntry env cfg n start br bs bp st f hr
    have h2 := frameBody_prevQuats env cfg n start br bs bp st f hr
    have h3 := frameBody_prevExp env cfg n start br bs bp st f hr
    have ih := frameLoop_rot env cfg n start br bs bp hr rest
      ((frameBody env cfg n start br bs bp st f).1)
    show ((frameBody env cfg n start br bs bp st f).2.1).toList ++
        (frameLoop env cfg n start br bs bp (frameBody env cfg n start br bs bp st f).1
          rest).2.1
      = rotChanCode cfg env.toEulerXYZ env.dpr env.piq (env.getQuat n) br
          (st.prevQuats n) (st.prevExp n) (f :: rest)
    rw [h1, ih, h2, h3]
    simp [rotChanCode]

/-- The channels a frame loop emits for object `n` depend on the incoming
state only through this object's two dict entries. -/
theorem frameLoop_channels (env : Env) (cfg : Config) (n : String) (start : ℤ)
    (br bs bp : Triple) :
    ∀ (frames : List ℤ) (st st' : LoopSt),
      st.prevQuats n = st'.prevQuats n → st.prevExp n = st'.prevExp n →
      (frameLoop env cfg n start br bs bp st frames).2
        = (frameLoop env cfg n start br bs bp st' frames).2
  | [], _, _, _, _ => rfl
  | f :: rest, st, st', hq, he => by
    have hA : (frameBody env cfg n start br bs bp st f).2.1
        = (frameBody env cfg n start br bs bp st' f).2.1 := by
      cases hr : cfg.export_rotation
      · rw [frameBody_rotEntry_off env cfg n start br bs bp st f hr,
          frameBody_rotEntry_off env cfg n start br bs bp st' f hr]
      · rw [frameBody_rotEntry env cfg n start br bs bp st f hr,
          frameBody_rotEntry env cfg n start br bs bp st' f hr, hq, he]
    have hB : (frameBody env cfg n start br bs bp st f).2.2.1
        = (frameBody env cfg n start br bs bp st' f).2.2.1 := by
      rw [frameBody_scaleEntry, frameBody_scaleEntry]
    have hC : (frameBody env cfg n start br bs bp st f).2.2.2
        = (frameBody env cfg n start br bs bp st' f).2.2.2 := by
      rw [frameBody_posEntry, frameBody_posEntry]
    have hq' : (frameBody env cfg n start br bs bp st f).1.prevQuats n
        = (frameBody env cfg n start br bs bp st' f).1.prevQuats n := by
      cases hr : cfg.export_rotation
      · rw [frameBody_prevQuats_off env cfg n start br bs bp st f hr,
          frameBody_prevQuats_off env cfg n start br bs bp st' f hr, hq]
      · rw [frameBody_prevQuats env cfg n start br bs bp st f hr,
          frameBody_prevQuats env cfg n start br bs bp st' f hr, hq, he]
        simp
    have he' : (frameBody env cfg n start br bs bp st f).1.prevExp n
        = (frameBody env cfg n start br bs bp st' f).1.prevExp n := by
      cases hr : cfg.export_rotation
      · rw [frameBody_prevExp_off env cfg n start br bs bp st f hr,
          frameBody_prevExp_off env cfg n start br bs bp st' f hr, he]
      · rw [frameBody_prevExp env cfg n start br bs bp st f hr,
          frameBody_prevExp env cfg n start br bs bp st' f hr, hq, he]
        simp
    have hnext := frameLoop_channels env cfg n start br bs bp rest
      (frameBody env cfg n start br bs bp st f).1
      (frameBody env cfg n start br bs bp st' f).1 hq' he'
    have e21 : (frameLoop env cfg n start br bs bp
          (frameBody env cfg n start br bs bp st f).1 rest).2.1
        = (frameLoop env cfg n start br bs bp
          (frameBody env cfg n start br bs bp st' f).1 rest).2.1 := by rw [hnext]
    have e22 : (frameLoop env cfg n start br bs bp
          (frameBody env cfg n start br bs bp st f).1 rest).2.2.1
        = (frameLoop env cfg n start br bs bp
          (frameBody env cfg n start br bs bp st' f).1 rest).2.2.1 := by rw [hnext]
    have e23 : (frameLoop env cfg n start br bs bp
          (frameBody env cfg n start br bs bp st f).1 rest).2.2.2
        = (frameLoop env cfg n start br bs bp
          (frameBody env cfg n start br bs bp st' f).1 rest).2.2.2 := by rw [hnext]
    show ((frameBody env cfg n start br bs bp st f).2.1.toList ++ _,
          (frameBody env cfg n start br bs bp st f).2.2.1.toList ++ _,
          (frameBody env cfg n start br bs bp st f).2.2.2.toList ++ _)
        = _
    rw [hA, hB, hC, e21, e22, e23]
    rfl

/-- A frame loop for object `n` never touches another object's dict
entries. -/
theorem frameLoop_state (env : Env) (cfg : Config) (n : String) (start : ℤ)
    (br bs bp : Triple) :
    ∀ (frames : List ℤ) (st : LoopSt) (m : String), m ≠ n →
      (frameLoop env cfg n start br bs bp st frames).1.prevQuats m = st.prevQuats m ∧
      (frameLoop env cfg n start br bs bp st frames).1.prevExp m = st.prevExp m
  | [], _, _, _ => ⟨rfl, rfl⟩
  | f :: rest, st, m, hm => by
    have ih := frameLoop_state env cfg n start br bs bp rest
      ((frameBody env cfg n start br bs bp st f).1) m hm
    constructor
    · show (frameLoop env cfg n start br bs bp
          (frameBody env cfg n start br bs bp st f).1 rest).1.prevQuats m = st.prevQuats m
      rw [ih.1]
      cases hr : cfg.export_rotation
      · rw [frameBody_prevQuats_off env cfg n start br bs bp st f hr]
      · rw [frameBody_prevQuats env cfg n start br bs bp st f hr]
        simp [hm]
    · show (frameLoop env cfg n start br bs bp
          (frameBody env cfg n start br bs bp st f).1 rest).1.prevExp m = st.prevExp m
      rw [ih.2]
      cases hr : cfg.export_rotation
      · rw [frameBody_prevExp_off env cfg n start br bs bp st f hr]
      · rw [frameBody_prevExp env cfg n start br bs bp st f hr]
        simp [hm]

/-- The standalone scale channel of one object: the scale part of the frame
loop, which reads no continuity state. -/
def scaleChanCode (env : Env) (cfg : Config) (n : String) (bs : Triple) :
    List ℤ → List (ℚ × Triple)
  | [] => []
  | f :: rest =>
    (timeKey ((f : ℚ) / EXPORT_FPS), round5T (scaleBody cfg bs (env.getScale n f))) ::
      scaleChanCode env cfg n bs rest

/-- The standalone position channel of one object. -/
def posChanCode (env : Env) (cfg : Config) (n : String) (start : ℤ) (bp : Triple) :
    List ℤ → List (ℚ × Triple)
  | [] => []
  | f :: rest =>
    (timeKey (((f : ℚ) - (start : ℚ)) / EXPORT_FPS),
        round5T (posBody cfg bp (env.getPos n f))) ::
      posChanCode env cfg n start bp rest

theorem frameLoop_rot_off (env : Env) (cfg : Config) (n : String) (start : ℤ)
    (br bs bp : Triple) (hr : cfg.export_rotation = false) :
    ∀ (frames : List ℤ) (st : LoopSt),
      (frameLoop env cfg n start br bs bp st frames).2.1 = []
  | [], _ => rfl
  | f :: rest, st => by
    have h1 := frameBody_rotEntry_off env cfg n start br bs bp st f hr
    have ih := frameLoop_rot_off env cfg n start br bs bp hr rest
      ((frameBody env cfg n start br bs bp st f).1)
    show ((frameBody env cfg n start br bs bp st f).2.1).toList ++
        (frameLoop env cfg n start br bs bp (frameBody env cfg n start br bs bp st f).1
          rest).2.1 = []
    rw [h1, ih]
    rfl

theorem frameLoop_scale (env : Env) (cfg : Config) (n : String) (start : ℤ)
    (br bs bp : Triple) :
    ∀ (frames : List ℤ) (st : LoopSt),
      (frameLoop env cfg n start br bs bp st frames).2.2.1
        = (if cfg.export_scale then scaleChanCode env cfg n bs frames else [])
  | [], _ => by cases cfg.export_scale <;> rfl
  | f :: rest, st => by
    have h1 := frameBody_scaleEntry env cfg n start br bs bp st f
    have ih := frameLoop_scale env cfg n start br bs bp rest
      ((frameBody env cfg n start br bs bp st f).1)
    show ((frameBody env cfg n start br bs bp st f).2.2.1).toList ++
        (frameLoop env cfg n start br bs bp (frameBody env cfg n start br bs bp st f).1
          rest).2.2.1 = _
    rw [h1, ih]
    cases hs : cfg.export_scale <;> simp [scaleChanCode, hs]

theorem frameLoop_pos (env : Env) (cfg : Config) (n : String) (start : ℤ)
    (br bs bp : Triple) :
    ∀ (frames : List ℤ) (st : LoopSt),
      (frameLoop env cfg n start br bs bp st frames).2.2.2
        = (if cfg.export_position then posChanCode env cfg n start bp frames else [])
  | [], _ => by cases cfg.export_position <;> rfl
  | f :: rest, st => by
    have h1 := frameBody_posEntry env cfg n start br bs bp st f
    have ih := frameLoop_pos env cfg n start br bs bp rest
      ((frameBody env cfg n start br bs bp st f).1)
    show ((frameBody env cfg n start br bs bp st f).2.2.2).toList ++
        (frameLoop env cfg n start br bs bp (frameBody env cfg n start br bs bp st f).1
          rest).2.2.2 = _
    rw [h1, ih]
    cases hp : cfg.export_position <;> simp [posChanCode, hp]

/-- `objBody`'s exported rotation channel, in terms of the object's two
incoming dict entries. -/
theorem objBody_rotation (env : Env) (cfg : Config) (start stop : ℤ) (st : LoopSt)
    (n : String) (hr : cfg.export_rotation = true) :
    (objBody env cfg start stop st n).2.rotation
      = some (rotChanCode cfg env.toEulerXYZ env.dpr env.piq (env.getQuat n)
          (baseRotVec cfg env.toEulerXYZ env.dpr (env.getQuat n start))
          (st.prevQuats n) (st.prevExp n) (frameList start stop cfg.step)) := by
  cases hs : cfg.export_scale <;> cases hp : cfg.export_position <;>
    simp [objBody, hr, hs, hp, frameLoop_rot env cfg n start _ _ _ hr]

theorem objBody_rotation_off (env : Env) (cfg : Config) (start stop : ℤ) (st : LoopSt)
    (n : String) (hr : cfg.export_rotation = false) :
    (objBody env cfg start stop st n).2.rotation = none := by
  cases hs : cfg.export_scale <;> cases hp : cfg.export_position <;>
    simp [objBody, hr, hs, hp]

theorem objBody_scale_chan (env : Env) (cfg : Config) (start stop : ℤ) (st : LoopSt)
    (n : String) :
    (objBody env cfg start stop st n).2.scale
      = (if cfg.export_scale
         then some (scaleChanCode env cfg n
            (applySwap cfg.scale_swap (env.getScale n start)) (frameList start stop cfg.step))
         else none) := by
  cases hr : cfg.export_rotation <;> cases hs : cfg.export_scale <;>
    cases hp : cfg.export_position <;>
    simp [objBody, hr, hs, hp, frameLoop_scale]

theorem objBody_pos_chan (env : Env) (cfg : Config) (start stop : ℤ) (st : LoopSt)
    (n : String) :
    (objBody env cfg start stop st n).2.position
      = (if cfg.export_position
         then some (posChanCode env cfg n start (env.getPos n start)
            (frameList start stop cfg.step))
         else none) := by
  cases hr : cfg.export_rotation <;> cases hs : cfg.export_scale <;>
    cases hp : cfg.export_position <;>
    simp [objBody, hr, hs, hp, frameLoop_pos]

/-- Processing one object never touches another object's dict entries. -/
theorem objBody_state (env : Env) (cfg : Config) (start stop : ℤ) (st : LoopSt)
    (n m : String) (hm : m ≠ n) :
    (objBody env cfg start stop st n).1.prevQuats m = st.prevQuats m ∧
    (objBody env cfg start stop st n).1.prevExp m = st.prevExp m := by
  cases hr : cfg.export_rotation <;> cases hs : cfg.export_scale <;>
    cases hp : cfg.export_position <;>
    · simp only [objBody, hr, hs, hp]
      simp
      exact ⟨(frameLoop_state env cfg n start _ _ _ _ _ m hm).1,
        (frameLoop_state env cfg n start _ _ _ _ _ m hm).2⟩

/-- A fresh loop state: what each dict lookup yields before anything was
stored for the queried name. -/
def freshLoopSt : LoopSt :=
  { prevQuats := fun _ => none, prevExp := fun _ => none, curFrame := 0, trace := [] }

/-- The per-object structure computed in isolation, from fresh state. -/
def objStandalone (env : Env) (cfg : Config) (start stop : ℤ) (n : String) : ObjStruct :=
  (objBody env cfg start stop freshLoopSt n).2

theorem ObjStruct.ext3 (a b : ObjStruct) (h1 : a.rotation = b.rotation)
    (h2 : a.scale = b.scale) (h3 : a.position = b.position) : a = b := by
  cases a
  cases b
  simp only at h1 h2 h3
  rw [h1, h2, h3]

/-- The structure exported for an object depends on the incoming state only
through that object's two dict entries. -/
theorem objBody_struct_congr (env : Env) (cfg : Config) (start stop : ℤ)
    (st st' : LoopSt) (n : String)
    (hq : st.prevQuats n = st'.prevQuats n) (he : st.prevExp n = st'.prevExp n) :
    (objBody env cfg start stop st n).2 = (objBody env cfg start stop st' n).2 := by
  refine ObjStruct.ext3 _ _ ?_ ?_ ?_
  · cases hr : cfg.export_rotation
    · rw [objBody_rotation_off env cfg start stop st n hr,
        objBody_rotation_off env cfg start stop st' n hr]
    · rw [objBody_rotation env cfg start stop st n hr,
        objBody_rotation env cfg start stop st' n hr, hq, he]
  · rw [objBody_scale_chan, objBody_scale_chan]
  · rw [objBody_pos_chan, objBody_pos_chan]

theorem dictInsert_append {α : Type} : ∀ (l : List (String × α)) (n : String) (v : α),
    ¬ n ∈ l.map Prod.fst → dictInsert l n v = l ++ [(n, v)]
  | [], _, _, _ => rfl
  | (k, w) :: t, n, v, h => by
    have hk : ¬ k = n := by
      intro hkn
      exact h (by simp [hkn])
    have ht : ¬ n ∈ t.map Prod.fst := by
      intro hnt
      exact h (by simp [hnt])
    show (if k = n then (n, v) :: t else (k, w) :: dictInsert t n v) = (k, w) :: t ++ [(n, v)]
    rw [if_neg hk, dictInsert_append t n v ht]
    rfl

/-- With pairwise-distinct names, the object loop produces exactly one
independently-computed structure per object, in order. -/
theorem objLoop_bones (env : Env) (cfg : Config) (start stop : ℤ) :
    ∀ (l : List String) (st : LoopSt) (bones : List (String × ObjStruct)),
      (∀ n ∈ l, st.prevQuats n = none ∧ st.prevExp n = none) →
      l.Nodup →
      (∀ n ∈ l, ¬ n ∈ bones.map Prod.fst) →
      (objLoop env cfg start stop st bones l).2
        = bones ++ l.map (fun n => (n, objStandalone env cfg start stop n))
  | [], _, bones, _, _, _ => by simp [objLoop]
  | n :: t, st, bones, hfresh, hnodup, hkeys => by
    have hf := hfresh n (by simp)
    have hos : (objBody env cfg start stop st n).2 = objStandalone env cfg start stop n :=
      objBody_struct_congr env cfg start stop st freshLoopSt n
        (by rw [hf.1]; rfl) (by rw [hf.2]; rfl)
    have hins : dictInsert bones n (objBody env cfg start stop st n).2
        = bones ++ [(n, (objBody env cfg start stop st n).2)] :=
      dictInsert_append bones n _ (hkeys n (by simp))
    have hfresh' : ∀ m ∈ t, (objBody env cfg start stop st n).1.prevQuats m = none ∧
        (objBody env cfg start stop st n).1.prevExp m = none := by
      intro m hm
      have hmn : m ≠ n := by
        intro hmn
        subst hmn
        exact (List.nodup_cons.mp hnodup).1 hm
      have := objBody_state env cfg start stop st n m hmn
      have hm2 := hfresh m (by simp [hm])
      exact ⟨this.1.trans hm2.1, this.2.trans hm2.2⟩
    have hkeys' : ∀ m ∈ t,
        ¬ m ∈ (bones ++ [(n, (objBody env cfg start stop st n).2)]).map Prod.fst := by
      intro m hm hmem
      rw [List.map_append] at hmem
      rcases List.mem_append.mp hmem with hmem | hmem
      · exact hkeys m (by simp [hm]) hmem
      · have hmn : m ≠ n := by
          intro hmn
          subst hmn
          exact (List.nodup_cons.mp hnodup).1 hm
        simp at hmem
        exact hmn hmem
    have ih := objLoop_bones env cfg start stop t
      (objBody env cfg start stop st n).1
      (bones ++ [(n, (objBody env cfg start stop st n).2)])
      hfresh' (List.nodup_cons.mp hnodup).2 hkeys'
    show (objLoop env cfg start stop (objBody env cfg start stop st n).1
        (dictInsert bones n (objBody env cfg start stop st n).2) t).2 = _
    rw [hins, ih, hos]
    simp

/-! ## `execute`-level facts -/

/-- On a successful run the delivered document is the assembled one. -/
theorem execute_doc (env : Env) (cfg : Config) (hw : env.writeOk = true)
    (hne : objectsOf env cfg ≠ []) :
    (execute env cfg).doc = some
      { format_version := "1.8.0"
        animation_length := (((normRange cfg).2 - (normRange cfg).1 + 1 : ℤ) : ℚ) / EXPORT_FPS
        bones := (objLoop env cfg (normRange cfg).1 (normRange cfg).2
          { prevQuats := fun _ => none, prevExp := fun _ => none
            curFrame := env.frame_current, trace := [] } [] (objectsOf env cfg)).2 } := by
  unfold execute
  cases h : objectsOf env cfg with
  | nil => exact absurd h hne
  | cons o os => simp [hw, h]

theorem lookup_map_self {α : Type} (g : String → α) :
    ∀ (l : List String) (n : String),
      List.lookup n (l.map (fun m => (m, g m))) = if n ∈ l then some (g n) else none
  | [], _ => rfl
  | m :: t, n => by
    by_cases hnm : n = m
    · subst hnm
      simp [List.lookup]
    · have hbeq : (n == m) = false := by simp [hnm]
      simp [List.lookup, hbeq, lookup_map_self g t n, hnm]

theorem frameList_head (start stop step : ℤ) (hle : start ≤ stop) (hstep : 1 ≤ step) :
    ∃ rest, frameList start stop step = start :: rest := by
  unfold frameList
  have hpos : 0 ≤ (stop - start) / step := Int.ediv_nonneg (by omega) (by omega)
  obtain ⟨k, hk⟩ : ∃ k, ((stop - start) / step + 1).toNat = k + 1 :=
    ⟨((stop - start) / step).toNat, by omega⟩
  refine ⟨List.map (fun i : ℕ => start + step * (i : ℤ)) (List.map Nat.succ (List.range k)), ?_⟩
  rw [hk, List.range_succ_eq_map, List.map_cons]
  congr 1
  simp

theorem round5_zero : round5 0 = 0 := by
  norm_num [round5, pyRound]

/-- With zeroing enabled and no history, a frame whose raw quaternion equals
the baseline's sample exports exactly `[0,0,0]` (pre-rounding). -/
theorem rotBody_first_zero (cfg : Config) (toE : Quat → Triple) (dpr piq : ℚ) (q0 : Quat)
    (hz : cfg.zero_rot_at_start = true) :
    (rotBody cfg toE dpr piq (baseRotVec cfg toE dpr q0) none none q0).2
      = ((0 : ℚ), (0 : ℚ), (0 : ℚ)) := by
  unfold rotBody baseRotVec
  simp only [contFilter, hz, if_pos]
  cases hu : cfg.use_axis_unwrap <;> simp [closest_euler_equiv, sub3, hu]

/-- The search result is the first minimum of the loop-ordered candidate
list. -/
theorem cee_isFirstMin (p cur : Triple) (deg : Bool) (piq : ℚ) (K : ℕ) :
    IsFirstMin (fun cand => sqDist cand p) (cands3 cur (fullTurn deg piq) K)
      (closest_euler_equiv (some p) cur deg piq K) := by
  rw [cee_sep]
  have h1 := best1_isFirstMin p.1 cur.1 (fullTurn deg piq) K
  have h2 := best1_isFirstMin p.2.1 cur.2.1 (fullTurn deg piq) K
  have h3 := best1_isFirstMin p.2.2 cur.2.2 (fullTurn deg piq) K
  have hprod := isFirstMin_pList h1 (isFirstMin_pList h2 h3)
  rw [← cands3_eq_pList] at hprod
  refine hprod.congr (fun x => ?_)
  simp only [sqDist]
  ring

theorem normRange_le (cfg : Config) : (normRange cfg).1 ≤ (normRange cfg).2 := by
  unfold normRange
  split <;> simp <;> omega

theorem objectsOf_selected (env : Env) (cfg : Config) (h : cfg.export_selected = true) :
    objectsOf env cfg = env.selected_objects := by
  simp [objectsOf, h]

/-! ## The claims -/

/-- C2: `closest_euler_equiv` returns `cur` unchanged when `prev_vals` is
absent; the nested loops enumerate exactly the shift triples of `[-K,K]³`, in
strictly ascending lexicographic order on `(kx, ky, kz)`, building candidate
`(cur.x + kx·Full, cur.y + ky·Full, cur.z + kz·Full)` with
`Full = fullTurn in_degrees π` (360 in degrees, 2π in radians); the result is
the candidate of minimum squared Euclidean distance to `prev`, first-seen
winning ties (`IsFirstMin`); and with `max_shift = 0` the result is `cur`
unchanged for any `prev`. -/
theorem C2_unwrap_enumeration (cur : Triple) (deg : Bool) (piq : ℚ) (K : ℕ) :
    closest_euler_equiv none cur deg piq K = cur
  ∧ List.Pairwise lex3 (lexShifts K)
  ∧ (∀ k : ℤ × ℤ × ℤ, k ∈ lexShifts K ↔
      (-(K : ℤ) ≤ k.1 ∧ k.1 ≤ K) ∧ (-(K : ℤ) ≤ k.2.1 ∧ k.2.1 ≤ K)
        ∧ (-(K : ℤ) ≤ k.2.2 ∧ k.2.2 ≤ K))
  ∧ cands3 cur (fullTurn deg piq) K = (lexShifts K).map (shiftBy cur (fullTurn deg piq))
  ∧ (∀ p : Triple, IsFirstMin (fun cand => sqDist cand p)
      (cands3 cur (fullTurn deg piq) K) (closest_euler_equiv (some p) cur deg piq K))
  ∧ (∀ prev : Option Triple, closest_euler_equiv prev cur deg piq 0 = cur) :=
  ⟨rfl, lexShifts_sorted K, mem_lexShifts K, cands3_eq_map_lexShifts cur _ K,
    fun p => cee_isFirstMin p cur deg piq K,
    fun prev => cee_zero_shift prev cur deg piq⟩

theorem best1_eq_of_isFirstMin (p c full : ℚ) (K : ℕ) (b : ℚ)
    (h : IsFirstMin (fun x => (x - p) * (x - p)) (cands1 c full K) b) :
    best1 p c full K = b :=
  isFirstMin_unique (best1_isFirstMin p c full K) h

theorem cands1_one (c full : ℚ) : cands1 c full 1 = [c - full, c, c + full] := by
  have h : shiftRange 1 = [-1, 0, 1] := rfl
  have e1 : c + ((-1 : ℤ) : ℚ) * full = c - full := by push_cast; ring
  have e2 : c + ((0 : ℤ) : ℚ) * full = c := by push_cast; ring
  have e3 : c + ((1 : ℤ) : ℚ) * full = c + full := by push_cast; ring
  rw [cands1, h]
  simp only [List.map_cons, List.map_nil, e1, e2, e3]

theorem best1_one_mid (p c full : ℚ)
    (h0 : (c - p) * (c - p) < (c - full - p) * (c - full - p))
    (h2 : (c - p) * (c - p) ≤ (c + full - p) * (c + full - p)) :
    best1 p c full 1 = c := by
  refine best1_eq_of_isFirstMin p c full 1 c ?_
  rw [cands1_one]
  refine ⟨[c - full], [c + full], rfl, ?_, ?_⟩
  · intro x hx
    have hx' : x = c - full := by simpa using hx
    rw [hx']
    exact h0
  · intro x hx
    have hx' : x = c + full := by simpa using hx
    rw [hx']
    exact h2

theorem best1_one_up (p c full : ℚ)
    (h0 : (c + full - p) * (c + full - p) < (c - full - p) * (c - full - p))
    (h1 : (c + full - p) * (c + full - p) < (c - p) * (c - p)) :
    best1 p c full 1 = c + full := by
  refine best1_eq_of_isFirstMin p c full 1 (c + full) ?_
  rw [cands1_one]
  refine ⟨[c - full, c], [], rfl, ?_, by simp⟩
  intro x hx
  rcases List.mem_cons.mp hx with rfl | hx
  · exact h0
  · have hx' : x = c := by simpa using hx
    rw [hx']
    exact h1

theorem best1_one_down (p c full : ℚ)
    (h1 : (c - full - p) * (c - full - p) ≤ (c - p) * (c - p))
    (h2 : (c - full - p) * (c - full - p) ≤ (c + full - p) * (c + full - p)) :
    best1 p c full 1 = c - full := by
  refine best1_eq_of_isFirstMin p c full 1 (c - full) ?_
  rw [cands1_one]
  refine ⟨[], [c, c + full], rfl, by simp, ?_⟩
  intro x hx
  rcases List.mem_cons.mp hx with rfl | hx
  · exact h1
  · have hx' : x = c + full := by simpa using hx
    rw [hx']
    exact h2

/-- C3 counterexample: with `prev = (720, 0, 0)`, `cur = (0, 0, 0)`, degrees
and `max_shift = 1`, one application returns `(360, 0, 0)` but applying the
search again to its own result returns `(720, 0, 0)`: re-selection is not
idempotent as claimed. -/
theorem C3_counterexample :
    closest_euler_equiv (some ((720 : ℚ), 0, 0))
        (closest_euler_equiv (some ((720 : ℚ), 0, 0)) ((0 : ℚ), 0, 0) true 3 1) true 3 1
      ≠ closest_euler_equiv (some ((720 : ℚ), 0, 0)) ((0 : ℚ), 0, 0) true 3 1 := by
  have hf : fullTurn true 3 = 360 := rfl
  have hy : best1 (0 : ℚ) 0 360 1 = 0 := best1_one_mid 0 0 360 (by norm_num) (by norm_num)
  have e1 : closest_euler_equiv (some ((720 : ℚ), 0, 0)) ((0 : ℚ), 0, 0) true 3 1
      = ((360 : ℚ), 0, 0) := by
    rw [cee_sep]
    show (best1 (720 : ℚ) 0 (fullTurn true 3) 1, best1 (0 : ℚ) 0 (fullTurn true 3) 1,
        best1 (0 : ℚ) 0 (fullTurn true 3) 1) = ((360 : ℚ), 0, 0)
    rw [hf]
    have hx : best1 (720 : ℚ) 0 360 1 = 360 := by
      have h := best1_one_up 720 0 360 (by norm_num) (by norm_num)
      norm_num at h
      exact h
    rw [hx, hy]
  have e2 : closest_euler_equiv (some ((720 : ℚ), 0, 0)) ((360 : ℚ), 0, 0) true 3 1
      = ((720 : ℚ), 0, 0) := by
    rw [cee_sep]
    show (best1 (720 : ℚ) 360 (fullTurn true 3) 1, best1 (0 : ℚ) 0 (fullTurn true 3) 1,
        best1 (0 : ℚ) 0 (fullTurn true 3) 1) = ((720 : ℚ), 0, 0)
    rw [hf]
    have hx : best1 (720 : ℚ) 360 360 1 = 720 := by
      have h := best1_one_up 720 360 360 (by norm_num) (by norm_num)
      norm_num at h
      exact h
    rw [hx, hy]
  rw [e1, e2]
  intro h
  exact absurd (congrArg Prod.fst h) (by norm_num)

/-- C3 (amended): re-selection is a fixpoint whenever the first result lies
strictly within half a full turn of `prev` on every axis (in particular the
full turn must be positive); in general a result a whole turn or more away
from `prev` can move again, as the counterexample shows. -/
theorem C3_amended_idempotence (p cur : Triple) (deg : Bool) (piq : ℚ) (K : ℕ)
    (hf : 0 < fullTurn deg piq)
    (h1 : |(closest_euler_equiv (some p) cur deg piq K).1 - p.1| < fullTurn deg piq / 2)
    (h2 : |(closest_euler_equiv (some p) cur deg piq K).2.1 - p.2.1| < fullTurn deg piq / 2)
    (h3 : |(closest_euler_equiv (some p) cur deg piq K).2.2 - p.2.2| < fullTurn deg piq / 2) :
    closest_euler_equiv (some p) (closest_euler_equiv (some p) cur deg piq K) deg piq K
      = closest_euler_equiv (some p) cur deg piq K := by
  rw [cee_sep p (closest_euler_equiv (some p) cur deg piq K) deg piq K]
  rw [best1_fix p.1 _ _ hf K h1, best1_fix p.2.1 _ _ hf K h2, best1_fix p.2.2 _ _ hf K h3]

/-- Witness for the amended C3 at a concrete input: `prev = (10,0,0)`,
`cur = (370,0,0)`, degrees, `K = 1`. -/
theorem C3_amended_idempotence_witness :
    closest_euler_equiv (some ((10 : ℚ), 0, 0))
        (closest_euler_equiv (some ((10 : ℚ), 0, 0)) ((370 : ℚ), 0, 0) true 3 1) true 3 1
      = closest_euler_equiv (some ((10 : ℚ), 0, 0)) ((370 : ℚ), 0, 0) true 3 1 := by
  have e3 : closest_euler_equiv (some ((10 : ℚ), 0, 0)) ((370 : ℚ), 0, 0) true 3 1
      = ((10 : ℚ), 0, 0) := by
    rw [cee_sep]
    show (best1 (10 : ℚ) 370 (fullTurn true 3) 1, best1 (0 : ℚ) 0 (fullTurn true 3) 1,
        best1 (0 : ℚ) 0 (fullTurn true 3) 1) = ((10 : ℚ), 0, 0)
    have hf : fullTurn true 3 = 360 := rfl
    rw [hf]
    have hx : best1 (10 : ℚ) 370 360 1 = 10 := by
      have h := best1_one_down 10 370 360 (by norm_num) (by norm_num)
      norm_num at h
      exact h
    have hy : best1 (0 : ℚ) 0 360 1 = 0 := best1_one_mid 0 0 360 (by norm_num) (by norm_num)
    rw [hx, hy]
  exact C3_amended_idempotence ((10 : ℚ), 0, 0) ((370 : ℚ), 0, 0) true 3 1
    (by norm_num [fullTurn]) (by rw [e3]; norm_num [fullTurn])
    (by rw [e3]; norm_num [fullTurn]) (by rw [e3]; norm_num [fullTurn])

theorem contFilter_dot_nonneg (p q : Quat) : 0 ≤ p.dot (contFilter (some p) q) := by
  show 0 ≤ p.dot (if p.dot q < 0 then q.negate else q)
  by_cases h : p.dot q < 0
  · rw [if_pos h]
    have hneg : p.dot q.negate = -(p.dot q) := by
      simp only [Quat.dot, Quat.negate]
      ring
    rw [hneg]
    linarith
  · rw [if_neg h]
    linarith [not_lt.mp h]

theorem filterSeq_head (p : Quat) (qs : List Quat) :
    ∀ b ∈ (filterSeq (some p) qs).head?, 0 ≤ p.dot b := by
  cases qs with
  | nil => simp [filterSeq]
  | cons q rest =>
    intro b hb
    have hb' : contFilter (some p) q = b := by
      simpa [filterSeq] using hb
    rw [← hb']
    exact contFilter_dot_nonneg p q

theorem filterSeq_chain : ∀ (prevq : Option Quat) (qs : List Quat),
    List.Chain' (fun a b => 0 ≤ a.dot b) (filterSeq prevq qs)
  | _, [] => List.chain'_nil
  | prevq, q :: rest => by
    show List.Chain' (fun a b => 0 ≤ a.dot b)
      (contFilter prevq q :: filterSeq (some (contFilter prevq q)) rest)
    rw [List.chain'_cons']
    exact ⟨filterSeq_head (contFilter prevq q) rest, filterSeq_chain _ rest⟩

/-- C4: the continuity filter always outputs a quaternion whose dot product
with the stored previous quaternion is nonnegative (negating exactly the
inputs with negative dot), and the sequence of quaternions stored frame after
frame for one object never has a negative consecutive dot product. -/
theorem C4_continuity (p q : Quat) (prevq : Option Quat) (qs : List Quat) :
    0 ≤ p.dot (contFilter (some p) q)
  ∧ contFilter (some p) q = (if p.dot q < 0 then q.negate else q)
  ∧ List.Chain' (fun a b => 0 ≤ a.dot b) (filterSeq prevq qs) :=
  ⟨contFilter_dot_nonneg p q, rfl, filterSeq_chain prevq qs⟩

/-- C6: each of the six axis permutations composed with its inverse is the
identity on every triple, and `"YXZ"` sends `[10, 20, 30]` to `[20, 10, 30]`. -/
theorem C6_swap_inverse (v : Triple) :
    (∀ c : SwapCode, applySwap (invCode c) (applySwap c v) = v)
  ∧ applySwap SwapCode.YXZ ((10 : ℚ), 20, 30) = ((20 : ℚ), 10, 30) := by
  refine ⟨fun c => ?_, rfl⟩
  cases c <;> rfl

/-- C9: with a previous triple present, the search result differs from `cur`
on each axis by an exact whole number of full turns, at most `max_shift` of
them. -/
theorem C9_result_is_shift (p cur : Triple) (deg : Bool) (piq : ℚ) (K : ℕ) :
    ∃ kx ky kz : ℤ,
      (-(K : ℤ) ≤ kx ∧ kx ≤ K) ∧ (-(K : ℤ) ≤ ky ∧ ky ≤ K) ∧ (-(K : ℤ) ≤ kz ∧ kz ≤ K) ∧
      closest_euler_equiv (some p) cur deg piq K
        = (cur.1 + (kx : ℚ) * fullTurn deg piq,
           cur.2.1 + (ky : ℚ) * fullTurn deg piq,
           cur.2.2 + (kz : ℚ) * fullTurn deg piq) := by
  obtain ⟨kx, hx, ex⟩ := best1_mem_shift p.1 cur.1 (fullTurn deg piq) K
  obtain ⟨ky, hy, ey⟩ := best1_mem_shift p.2.1 cur.2.1 (fullTurn deg piq) K
  obtain ⟨kz, hz, ez⟩ := best1_mem_shift p.2.2 cur.2.2 (fullTurn deg piq) K
  exact ⟨kx, ky, kz, hx, hy, hz, by rw [cee_sep, ex, ey, ez]⟩

/-- C10: `execute` leaves the scene's current frame as it found it on every
exit path — the empty-object cancellation (nothing was changed), the
file-write failure (line 353 restores it), and success (line 356 restores
it).  `step ≥ 1` is the UI-enforced bound under which the frame loop is
well-defined. -/
theorem C10_frame_restored (env : Env) (cfg : Config) (hstep : 1 ≤ cfg.step) :
    (execute env cfg).finalFrame = env.frame_current := by
  unfold execute
  cases h : objectsOf env cfg with
  | nil => rfl
  | cons o os => cases hw : env.writeOk <;> simp [hw]

/-- Witness for C10 at a concrete environment and configuration. -/
theorem C10_frame_restored_witness :
    (execute
      { selected_objects := ["a"], active_object := none, frame_current := 7
        getQuat := fun _ _ => ⟨1, 0, 0, 0⟩, getScale := fun _ _ => (1, 1, 1)
        getPos := fun _ _ => (0, 0, 0), toEulerXYZ := fun q => (q.x, q.y, q.z)
        dpr := 57, piq := 3, writeOk := false }
      { start_frame := 1, end_frame := 2, step := 1, export_selected := true
        use_world_space := false, export_rotation := true, export_degrees := true
        invert_rot_x := false, invert_rot_y := false, invert_rot_z := false
        rotation_swap := .XYZ, zero_rot_at_start := false, use_axis_unwrap := true
        export_scale := false, normalize_scale_at_start := false, scale_swap := .XYZ
        export_position := false, pos_multiplier := 1, invert_pos_x := false
        invert_pos_y := false, invert_pos_z := false, position_swap := .XYZ
        unwrap_max_shift := 1 }).finalFrame = 7 :=
  C10_frame_restored _ _ (by norm_num)

/-- C1: the rotation pipeline behaves as the fixed stage order prescribes.
For every configuration, Euler converter, degree factor, π value, sampler and
frame list, the rotation channel the code emits (`rotChanCode`, which
`objBody_rotation` proves is what `execute` exports per object, with the
code's baseline `baseRotVec q0`) equals the channel of the spec-ordered
pipeline `rotChanSpec` — continuity, conversion, inversion, then UnwrapSearch,
then baseline zeroing, with the axis permutation strictly last; in particular
the search acts before normalisation and the permutation after every numeric
stage. -/
theorem C1_stage_order (cfg : Config) (toE : Quat → Triple) (dpr piq : ℚ)
    (getQ : ℤ → Quat) (q0 : Quat) (frames : List ℤ) :
    rotChanCode cfg toE dpr piq getQ (baseRotVec cfg toE dpr q0) none none frames
      = rotChanSpec cfg toE dpr piq getQ (convertInvert cfg toE dpr q0) none none frames := by
  have hb : baseRotVec cfg toE dpr q0
      = applySwap cfg.rotation_swap (convertInvert cfg toE dpr q0) := rfl
  rw [hb, rotChan_code_eq_spec]

/-! ## Congruence of the loops in the frame-range fields (for C7) -/

/-- The configuration with the two frame bounds swapped (the auto-correction
of line 184). -/
def swapRangeCfg (cfg : Config) : Config :=
  { cfg with start_frame := cfg.end_frame, end_frame := cfg.start_frame }

theorem frameBody_swapCfg (env : Env) (cfg : Config) (n : String) (start : ℤ)
    (br bs bp : Triple) (st : LoopSt) (f : ℤ) :
    frameBody env (swapRangeCfg cfg) n start br bs bp st f
      = frameBody env cfg n start br bs bp st f := rfl

theorem frameLoop_swapCfg (env : Env) (cfg : Config) (n : String) (start : ℤ)
    (br bs bp : Triple) :
    ∀ (frames : List ℤ) (st : LoopSt),
      frameLoop env (swapRangeCfg cfg) n start br bs bp st frames
        = frameLoop env cfg n start br bs bp st frames
  | [], _ => rfl
  | f :: rest, st => by
    have hb := frameBody_swapCfg env cfg n start br bs bp st f
    have ih := frameLoop_swapCfg env cfg n start br bs bp rest
      (frameBody env cfg n start br bs bp st f).1
    simp only [frameLoop]
    rw [hb]
    rw [ih]

theorem objBody_swapCfg (env : Env) (cfg : Config) (start stop : ℤ)
    (st : LoopSt) (n : String) :
    objBody env (swapRangeCfg cfg) start stop st n
      = objBody env cfg start stop st n := by
  unfold objBody
  simp only [frameLoop_swapCfg]
  rfl

theorem objLoop_swapCfg (env : Env) (cfg : Config) (start stop : ℤ) :
    ∀ (l : List String) (st : LoopSt) (bones : List (String × ObjStruct)),
      objLoop env (swapRangeCfg cfg) start stop st bones l
        = objLoop env cfg start stop st bones l
  | [], _, _ => rfl
  | n :: t, st, bones => by
    have hb := objBody_swapCfg env cfg start stop st n
    have ih := objLoop_swapCfg env cfg start stop t
      (objBody env cfg start stop st n).1
      (dictInsert bones n (objBody env cfg start stop st n).2)
    simp only [objLoop]
    rw [hb]
    rw [ih]

/-- C7: an empty object set cancels the run before anything is sampled, with
no document delivered; an inverted frame range is not an error — `execute`
behaves exactly as it does with the two bounds swapped. -/
theorem C7_empty_and_inverted_range (env : Env) (cfg : Config) :
    (objectsOf env cfg = [] →
      (execute env cfg).status = OpStatus.CANCELLED ∧
      (execute env cfg).doc = none ∧
      (execute env cfg).sampled = [])
  ∧ (cfg.end_frame < cfg.start_frame →
      execute env cfg = execute env (swapRangeCfg cfg)) := by
  constructor
  · intro h
    refine ⟨?_, ?_, ?_⟩ <;> simp [execute, h]
  · intro hlt
    have hobj : objectsOf env (swapRangeCfg cfg) = objectsOf env cfg := rfl
    have hnr : normRange (swapRangeCfg cfg) = normRange cfg := by
      simp [normRange, swapRangeCfg, hlt, lt_asymm hlt]
    unfold execute
    rw [hobj, hnr]
    cases h : objectsOf env cfg with
    | nil => rfl
    | cons o os =>
      simp only
      rw [objLoop_swapCfg]

theorem round5T_zero : round5T ((0 : ℚ), (0 : ℚ), (0 : ℚ)) = ((0 : ℚ), (0 : ℚ), (0 : ℚ)) := by
  simp [round5T, round5_zero]

/-- C5: with zero-at-start enabled, every object's first exported rotation
sample — keyed at the start frame — equals `[0,0,0]` within `1e-5`, for every
configuration, sampler and baseline value, even though the baseline comes
from a separate start-frame evaluation (lines 208-225) rather than from the
loop's first iteration. -/
theorem C5_first_sample_zero (env : Env) (cfg : Config)
    (hw : env.writeOk = true) (hr : cfg.export_rotation = true)
    (hz : cfg.zero_rot_at_start = true) (hstep : 1 ≤ cfg.step)
    (hne : objectsOf env cfg ≠ []) (hnodup : (objectsOf env cfg).Nodup) :
    ∃ d, (execute env cfg).doc = some d ∧
      ∀ n ∈ objectsOf env cfg, ∃ os ch v,
        List.lookup n d.bones = some os ∧
        os.rotation = some ch ∧
        ch.head? = some (timeKey (((normRange cfg).1 : ℚ) / EXPORT_FPS), v) ∧
        |v.1| ≤ 1 / 100000 ∧ |v.2.1| ≤ 1 / 100000 ∧ |v.2.2| ≤ 1 / 100000 := by
  refine ⟨_, execute_doc env cfg hw hne, ?_⟩
  intro n hn
  have hbones := objLoop_bones env cfg (normRange cfg).1 (normRange cfg).2
    (objectsOf env cfg)
    { prevQuats := fun _ => none, prevExp := fun _ => none
      curFrame := env.frame_current, trace := [] } []
    (fun _ _ => ⟨rfl, rfl⟩) hnodup (fun _ _ h => by simp at h)
  obtain ⟨rest, hfl⟩ := frameList_head (normRange cfg).1 (normRange cfg).2 cfg.step
    (normRange_le cfg) hstep
  refine ⟨objStandalone env cfg (normRange cfg).1 (normRange cfg).2 n,
    rotChanCode cfg env.toEulerXYZ env.dpr env.piq (env.getQuat n)
      (baseRotVec cfg env.toEulerXYZ env.dpr (env.getQuat n (normRange cfg).1))
      none none (frameList (normRange cfg).1 (normRange cfg).2 cfg.step),
    ((0 : ℚ), (0 : ℚ), (0 : ℚ)), ?_, ?_, ?_, by norm_num, by norm_num, by norm_num⟩
  · show List.lookup n ((objLoop env cfg (normRange cfg).1 (normRange cfg).2
      { prevQuats := fun _ => none, prevExp := fun _ => none
        curFrame := env.frame_current, trace := [] } [] (objectsOf env cfg)).2)
      = some (objStandalone env cfg (normRange cfg).1 (normRange cfg).2 n)
    rw [hbones]
    simp only [List.nil_append]
    rw [lookup_map_self]
    simp [hn]
  · exact objBody_rotation env cfg (normRange cfg).1 (normRange cfg).2 freshLoopSt n hr
  · rw [hfl]
    have hb0 := rotBody_first_zero cfg env.toEulerXYZ env.dpr env.piq
      (env.getQuat n (normRange cfg).1) hz
    show some (timeKey (((normRange cfg).1 : ℚ) / EXPORT_FPS),
        round5T (rotBody cfg env.toEulerXYZ env.dpr env.piq
          (baseRotVec cfg env.toEulerXYZ env.dpr (env.getQuat n (normRange cfg).1))
          none none (env.getQuat n (normRange cfg).1)).2) = _
    rw [hb0, round5T_zero]

/-! ## Congruence of the loops in the selected-objects field (for C8) -/

/-- The environment with a different selection, sharing every sampler. -/
def withSel (env : Env) (l : List String) : Env :=
  { env with selected_objects := l }

theorem frameBody_withSel (env : Env) (l : List String) (cfg : Config) (n : String)
    (start : ℤ) (br bs bp : Triple) (st : LoopSt) (f : ℤ) :
    frameBody (withSel env l) cfg n start br bs bp st f
      = frameBody env cfg n start br bs bp st f := rfl

theorem frameLoop_withSel (env : Env) (l : List String) (cfg : Config) (n : String)
    (start : ℤ) (br bs bp : Triple) :
    ∀ (frames : List ℤ) (st : LoopSt),
      frameLoop (withSel env l) cfg n start br bs bp st frames
        = frameLoop env cfg n start br bs bp st frames
  | [], _ => rfl
  | f :: rest, st => by
    have hb := frameBody_withSel env l cfg n start br bs bp st f
    have ih := frameLoop_withSel env l cfg n start br bs bp rest
      (frameBody env cfg n start br bs bp st f).1
    simp only [frameLoop]
    rw [hb]
    rw [ih]

theorem objBody_withSel (env : Env) (l : List String) (cfg : Config) (start stop : ℤ)
    (st : LoopSt) (n : String) :
    objBody (withSel env l) cfg start stop st n = objBody env cfg start stop st n := by
  unfold objBody
  simp only [frameLoop_withSel]
  rfl

theorem objStandalone_withSel (env : Env) (l : List String) (cfg : Config)
    (start stop : ℤ) (n : String) :
    objStandalone (withSel env l) cfg start stop n = objStandalone env cfg start stop n := by
  unfold objStandalone
  rw [objBody_withSel]

/-- C8: continuity state is scoped per object and never crosses objects: with
distinct names, each object's exported structure is the one computed from
that object alone (`objStandalone`, fresh state), so processing the objects
in any other order yields the same per-name structures. -/
theorem C8_per_object_isolation (env : Env) (cfg : Config) (l₁ l₂ : List String)
    (hsel : cfg.export_selected = true) (hw : env.writeOk = true)
    (hperm : l₁.Perm l₂) (hnodup : l₁.Nodup) (hne : l₁ ≠ []) :
    ∃ d₁ d₂,
      (execute (withSel env l₁) cfg).doc = some d₁ ∧
      (execute (withSel env l₂) cfg).doc = some d₂ ∧
      (∀ n ∈ l₁, List.lookup n d₁.bones
        = some (objStandalone env cfg (normRange cfg).1 (normRange cfg).2 n)) ∧
      (∀ n : String, List.lookup n d₁.bones = List.lookup n d₂.bones) := by
  have hobj₁ : objectsOf (withSel env l₁) cfg = l₁ := objectsOf_selected _ cfg hsel
  have hobj₂ : objectsOf (withSel env l₂) cfg = l₂ := objectsOf_selected _ cfg hsel
  have hne₂ : l₂ ≠ [] := fun h => hne (List.Perm.eq_nil (h ▸ hperm))
  have hnodup₂ : l₂.Nodup := hperm.nodup hnodup
  have hw₁ : (withSel env l₁).writeOk = true := hw
  have hw₂ : (withSel env l₂).writeOk = true := hw
  refine ⟨_, _, execute_doc _ cfg hw₁ (by rw [hobj₁]; exact hne),
    execute_doc _ cfg hw₂ (by rw [hobj₂]; exact hne₂), ?_, ?_⟩
  all_goals
    have hbones₁ := objLoop_bones (withSel env l₁) cfg (normRange cfg).1 (normRange cfg).2
      (objectsOf (withSel env l₁) cfg)
      { prevQuats := fun _ => none, prevExp := fun _ => none
        curFrame := (withSel env l₁).frame_current, trace := [] } []
      (fun _ _ => ⟨rfl, rfl⟩) (by rw [hobj₁]; exact hnodup) (fun _ _ h => by simp at h)
    have hbones₂ := objLoop_bones (withSel env l₂) cfg (normRange cfg).1 (normRange cfg).2
      (objectsOf (withSel env l₂) cfg)
      { prevQuats := fun _ => none, prevExp := fun _ => none
        curFrame := (withSel env l₂).frame_current, trace := [] } []
      (fun _ _ => ⟨rfl, rfl⟩) (by rw [hobj₂]; exact hnodup₂) (fun _ _ h => by simp at h)
    rw [hobj₁] at hbones₁
    rw [hobj₂] at hbones₂
  · intro n hn
    show List.lookup n ((objLoop (withSel env l₁) cfg (normRange cfg).1 (normRange cfg).2
        { prevQuats := fun _ => none, prevExp := fun _ => none
          curFrame := (withSel env l₁).frame_current, trace := [] } []
        (objectsOf (withSel env l₁) cfg)).2) = _
    rw [hobj₁, hbones₁]
    simp only [List.nil_append]
    rw [lookup_map_self]
    rw [if_pos hn, objStandalone_withSel]
  · intro n
    show List.lookup n ((objLoop (withSel env l₁) cfg (normRange cfg).1 (normRange cfg).2
        { prevQuats := fun _ => none, prevExp := fun _ => none
          curFrame := (withSel env l₁).frame_current, trace := [] } []
        (objectsOf (withSel env l₁) cfg)).2)
      = List.lookup n ((objLoop (withSel env l₂) cfg (normRange cfg).1 (normRange cfg).2
        { prevQuats := fun _ => none, prevExp := fun _ => none
          curFrame := (withSel env l₂).frame_current, trace := [] } []
        (objectsOf (withSel env l₂) cfg)).2)
    rw [hobj₁, hobj₂, hbones₁, hbones₂]
    simp only [List.nil_append]
    rw [lookup_map_self, lookup_map_self]
    by_cases hn : n ∈ l₁
    · rw [if_pos hn, if_pos (hperm.mem_iff.mp hn),
        objStandalone_withSel, objStandalone_withSel]
    · rw [if_neg hn, if_neg (fun h => hn (hperm.mem_iff.mpr h))]

/-! ## Concrete witnesses for the `execute`-level claims -/

/-- A concrete Blender-side world used by the C5 witness. -/
def envC5 : Env :=
  { selected_objects := ["a"], active_object := none, frame_current := 3
    getQuat := fun _ _ => ⟨1, 0, 0, 0⟩, getScale := fun _ _ => (1, 1, 1)
    getPos := fun _ _ => (0, 0, 0), toEulerXYZ := fun q => (q.x, q.y, q.z)
    dpr := 57, piq := 3, writeOk := true }

/-- A concrete configuration used by the C5 witness. -/
def cfgC5 : Config :=
  { start_frame := 0, end_frame := 0, step := 1, export_selected := true
    use_world_space := false, export_rotation := true, export_degrees := true
    invert_rot_x := false, invert_rot_y := false, invert_rot_z := false
    rotation_swap := .XYZ, zero_rot_at_start := true, use_axis_unwrap := true
    export_scale := false, normalize_scale_at_start := false, scale_swap := .XYZ
    export_position := false, pos_multiplier := 1, invert_pos_x := false
    invert_pos_y := false, invert_pos_z := false, position_swap := .XYZ
    unwrap_max_shift := 1 }

/-- Witness for C5 at the concrete world and configuration above. -/
theorem C5_first_sample_zero_witness :
    ∃ d, (execute envC5 cfgC5).doc = some d ∧
      ∀ n ∈ objectsOf envC5 cfgC5, ∃ os ch v,
        List.lookup n d.bones = some os ∧
        os.rotation = some ch ∧
        ch.head? = some (timeKey (((normRange cfgC5).1 : ℚ) / EXPORT_FPS), v) ∧
        |v.1| ≤ 1 / 100000 ∧ |v.2.1| ≤ 1 / 100000 ∧ |v.2.2| ≤ 1 / 100000 :=
  C5_first_sample_zero envC5 cfgC5 rfl rfl rfl (le_refl 1)
    (by simp [objectsOf, envC5, cfgC5]) (by simp [objectsOf, envC5, cfgC5])

/-- A concrete world with nothing selected, and an inverted frame range, used
by the C7 witness. -/
def envC7e : Env :=
  { selected_objects := [], active_object := none, frame_current := 0
    getQuat := fun _ _ => ⟨1, 0, 0, 0⟩, getScale := fun _ _ => (1, 1, 1)
    getPos := fun _ _ => (0, 0, 0), toEulerXYZ := fun q => (q.x, q.y, q.z)
    dpr := 57, piq := 3, writeOk := true }

/-- A concrete configuration with `end_frame < start_frame` used by the C7
witness. -/
def cfgC7 : Config :=
  { start_frame := 5, end_frame := 0, step := 1, export_selected := true
    use_world_space := false, export_rotation := true, export_degrees := true
    invert_rot_x := false, invert_rot_y := false, invert_rot_z := false
    rotation_swap := .XYZ, zero_rot_at_start := false, use_axis_unwrap := true
    export_scale := false, normalize_scale_at_start := false, scale_swap := .XYZ
    export_position := false, pos_multiplier := 1, invert_pos_x := false
    invert_pos_y := false, invert_pos_z := false, position_swap := .XYZ
    unwrap_max_shift := 1 }

/-- Witness for C7: the empty selection cancels with no document and no
samples, and the inverted range is handled exactly as its swapped form. -/
theorem C7_empty_and_inverted_range_witness :
    ((execute envC7e cfgC7).status = OpStatus.CANCELLED ∧
      (execute envC7e cfgC7).doc = none ∧ (execute envC7e cfgC7).sampled = []) ∧
    execute envC7e cfgC7 = execute envC7e (swapRangeCfg cfgC7) :=
  ⟨(C7_empty_and_inverted_range envC7e cfgC7).1 rfl,
   (C7_empty_and_inverted_range envC7e cfgC7).2 (by norm_num [cfgC7])⟩

/-- A concrete world used by the C8 witness; the selection is supplied through
`withSel`. -/
def envC8 : Env :=
  { selected_objects := [], active_object := none, frame_current := 2
    getQuat := fun n f => if n = "a" then ⟨1, 0, 0, 0⟩ else ⟨0, 1, 0, 0⟩
    getScale := fun _ _ => (1, 1, 1), getPos := fun _ _ => (0, 0, 0)
    toEulerXYZ := fun q => (q.x, q.y, q.z), dpr := 57, piq := 3, writeOk := true }

/-- A concrete configuration used by the C8 witness. -/
def cfgC8 : Config :=
  { start_frame := 1, end_frame := 2, step := 1, export_selected := true
    use_world_space := false, export_rotation := true, export_degrees := true
    invert_rot_x := false, invert_rot_y := false, invert_rot_z := false
    rotation_swap := .XYZ, zero_rot_at_start := false, use_axis_unwrap := true
    export_scale := false, normalize_scale_at_start := false, scale_swap := .XYZ
    export_position := false, pos_multiplier := 1, invert_pos_x := false
    invert_pos_y := false, invert_pos_z := false, position_swap := .XYZ
    unwrap_max_shift := 1 }

/-- Witness for C8: two objects processed in both orders. -/
theorem C8_per_object_isolation_witness :
    ∃ d₁ d₂,
      (execute (withSel envC8 ["a", "b"]) cfgC8).doc = some d₁ ∧
      (execute (withSel envC8 ["b", "a"]) cfgC8).doc = some d₂ ∧
      (∀ n ∈ ["a", "b"], List.lookup n d₁.bones
        = some (objStandalone envC8 cfgC8 (normRange cfgC8).1 (normRange cfgC8).2 n)) ∧
      (∀ n : String, List.lookup n d₁.bones = List.lookup n d₂.bones) :=
  C8_per_object_isolation envC8 cfgC8 ["a", "b"] ["b", "a"] rfl rfl
    (List.Perm.swap "b" "a" []) (by simp) (by simp)

end Gecko
